import Mathlib

/-!
Shallow embedding of the palomadex-incentives repository
(`contracts/incentives` and `contracts/vepdex`), together with proofs that
settle the claims of the specification against the code.

Conventions used throughout:
* `u64`/`Uint128` values are modelled as `Nat`; cosmwasm checked arithmetic
  that would error on underflow is modelled with explicit comparisons.
* `Decimal256` values are modelled by their atomics (the underlying integer
  scaled by `10 ^ 18`), so `Decimal256::one()` is `ONE_ATOMICS`, and both
  `Decimal256::from_ratio` and decimal division floor exactly as the source
  does.
* Fallible handlers return `Except` values; a handler that returns an error
  in the source leaves storage untouched, which the embedding reflects by
  returning the new state only in the `ok` branch.
* Addresses and denoms are Lean `String`s.
Definitions are translated from the Rust source files under `src/`; the
few helper functions that live in files absent from `src/` (the incentives
`state.rs`, `reply.rs`, and the vepdex `state.rs`/`staking.rs`) are marked
`Modelled from the spec:` in their doc comments and follow the
specification's wording.
-/

/-- Decidable equality for `Except` results, so that concrete runs of the
embedded handlers can be checked by `decide`. -/
instance instDecEqExcept {ε α : Type} [DecidableEq ε] [DecidableEq α] :
    DecidableEq (Except ε α) := fun a b =>
  match a, b with
  | .error e1, .error e2 =>
      if h : e1 = e2 then .isTrue (by rw [h])
      else .isFalse (by intro hh; injection hh; exact h (by assumption))
  | .ok a1, .ok a2 =>
      if h : a1 = a2 then .isTrue (by rw [h])
      else .isFalse (by intro hh; injection hh; exact h (by assumption))
  | .error _, .ok _ => .isFalse (by intro hh; injection hh)
  | .ok _, .error _ => .isFalse (by intro hh; injection hh)

namespace Palomadex

/-- Native coin: denom plus amount (cosmwasm `Coin`). -/
structure Coin where
  denom : String
  amount : Nat
deriving DecidableEq, Repr

/-- Tagged asset identifier from `asset.rs` (`AssetInfo`): a cw20 token
contract address or a native denom. -/
inductive AssetInfo where
  | token (contractAddr : String)
  | native (denom : String)
deriving DecidableEq, Repr

/-- Asset: an `AssetInfo` together with an amount (`asset.rs`, `Asset`). -/
structure Asset where
  info : AssetInfo
  amount : Nat
deriving DecidableEq, Repr

/-- Constant from `constants.rs`: anchor timestamp of the epoch grid. -/
def EPOCHS_START : Nat := 1696809600

/-- Constant from `constants.rs`: epoch length, seven days in seconds. -/
def EPOCH_LENGTH : Nat := 86400 * 7

/-- Constant from `constants.rs`: maximal number of periods of a schedule. -/
def MAX_PERIODS : Nat := 25

/-- Constant from `constants.rs`: maximal TTL of an ownership proposal. -/
def MAX_PROPOSAL_TTL : Nat := 1209600

/-- Constant from `constants.rs`: cap on reward slots per pool. -/
def MAX_REWARD_TOKENS : Nat := 5

/-- Atomics of `Decimal256::one()`: the fixed scale is `10 ^ 18`. -/
def ONE_ATOMICS : Nat := 10 ^ 18

/-- Input of the `Incentivize` message (`types.rs`, `InputSchedule`). -/
structure InputSchedule where
  reward : Asset
  durationPeriods : Nat
deriving DecidableEq, Repr

/-- Result of `IncentivesSchedule::from_input` (`types.rs`): epoch-aligned
start, end, reward info and reward-per-second in `Decimal256` atomics. -/
structure IncentivesSchedule where
  nextEpochStartTs : Nat
  endTs : Nat
  rewardInfo : AssetInfo
  rpsAtomics : Nat
deriving DecidableEq, Repr

/-- Embedding of `IncentivesSchedule::from_input` (`types.rs` lines
264-298).  `blockTs` is `env.block.time.seconds()`.  Note the source
computes `rem = block_ts % EPOCHS_START` (a modulo, not a subtraction) and
`Decimal256::from_ratio` floors at `10 ^ 18` atomics. -/
def IncentivesSchedule.fromInput (blockTs : Nat) (input : InputSchedule) :
    Except String IncentivesSchedule :=
  if input.durationPeriods > MAX_PERIODS ∨ input.durationPeriods = 0 then
    .error "Duration must be more 0 and less than or equal to MAX_PERIODS"
  else
    let rem := blockTs % EPOCHS_START
    let nextEpochStartTs :=
      if rem % EPOCH_LENGTH = 0 then
        blockTs
      else
        EPOCHS_START + (rem / EPOCH_LENGTH + 1) * EPOCH_LENGTH
    let endTs := nextEpochStartTs + input.durationPeriods * EPOCH_LENGTH
    let rps := input.reward.amount * ONE_ATOMICS / (endTs - blockTs)
    if rps < ONE_ATOMICS then
      .error "Reward per second must be at least 1 unit"
    else
      .ok { nextEpochStartTs := nextEpochStartTs, endTs := endTs,
            rewardInfo := input.reward.info, rpsAtomics := rps }

/-- Formula of the specification for the next epoch start: written from the
spec's words (`EPOCHS_START + ceil((t - EPOCHS_START)/EPOCH_LENGTH) *
EPOCH_LENGTH`, with `t` itself when `t` sits on an epoch boundary), to be
compared with the source's computation. -/
def specNextEpochStart (t : Nat) : Nat :=
  if (t - EPOCHS_START) % EPOCH_LENGTH = 0 then t
  else EPOCHS_START + ((t - EPOCHS_START + EPOCH_LENGTH - 1) / EPOCH_LENGTH) * EPOCH_LENGTH

/-! Storage keys for `AssetInfo` (claim C10).  The source serializes an
`AssetInfo` as a one-byte tag followed by the UTF-8 bytes of the denom or
contract address (`utils.rs`, `asset_info_key`), and parses it back with
`String::from_utf8` (`utils.rs`, `from_key_to_asset_info`).  Bytes are
modelled as `Nat`s; `utf8EncodeCharNat` is the standard UTF-8 encoding of
a Unicode scalar value (what Rust's `str::as_bytes` produces per char) and
`decodeOneChar`/`utf8DecodeNats` the validating decoder (what Rust's
`String::from_utf8` accepts). -/

/-- UTF-8 encoding of one Unicode scalar value, as a list of bytes. -/
def utf8EncodeCharNat (c : Nat) : List Nat :=
  if c < 128 then [c]
  else if c < 2048 then [192 + c / 64, 128 + c % 64]
  else if c < 65536 then [224 + c / 4096, 128 + c / 64 % 64, 128 + c % 64]
  else [240 + c / 262144, 128 + c / 4096 % 64, 128 + c / 64 % 64, 128 + c % 64]

/-- Decode a single UTF-8 encoded scalar value from the front of a byte
list, validating continuation bytes, overlong forms, surrogates and the
Unicode range, as Rust's `String::from_utf8` does. -/
def decodeOneChar (b : Nat) (rest : List Nat) : Option (Nat × List Nat) :=
  if b < 128 then some (b, rest)
  else if b < 192 then none
  else if b < 224 then
    match rest with
    | b1 :: rest1 =>
      if 128 ≤ b1 ∧ b1 < 192 then
        if 128 ≤ (b - 192) * 64 + (b1 - 128) then
          some ((b - 192) * 64 + (b1 - 128), rest1)
        else none
      else none
    | [] => none
  else if b < 240 then
    match rest with
    | b1 :: b2 :: rest2 =>
      if (128 ≤ b1 ∧ b1 < 192) ∧ (128 ≤ b2 ∧ b2 < 192) then
        if 2048 ≤ (b - 224) * 4096 + (b1 - 128) * 64 + (b2 - 128) ∧
            ((b - 224) * 4096 + (b1 - 128) * 64 + (b2 - 128) < 55296 ∨
              57343 < (b - 224) * 4096 + (b1 - 128) * 64 + (b2 - 128)) then
          some ((b - 224) * 4096 + (b1 - 128) * 64 + (b2 - 128), rest2)
        else none
      else none
    | _ => none
  else if b < 248 then
    match rest with
    | b1 :: b2 :: b3 :: rest3 =>
      if (128 ≤ b1 ∧ b1 < 192) ∧ (128 ≤ b2 ∧ b2 < 192) ∧ (128 ≤ b3 ∧ b3 < 192) then
        if 65536 ≤ (b - 240) * 262144 + (b1 - 128) * 4096 + (b2 - 128) * 64 + (b3 - 128) ∧
            (b - 240) * 262144 + (b1 - 128) * 4096 + (b2 - 128) * 64 + (b3 - 128) < 1114112 then
          some ((b - 240) * 262144 + (b1 - 128) * 4096 + (b2 - 128) * 64 + (b3 - 128), rest3)
        else none
      else none
    | _ => none
  else none

/-- Full UTF-8 decoding of a byte list into a list of Unicode scalar
values; `none` when the bytes are not valid UTF-8. -/
def utf8DecodeNats : List Nat → Option (List Nat)
  | [] => some []
  | b :: rest =>
    match h : decodeOneChar b rest with
    | none => none
    | some (c, rest2) => (utf8DecodeNats rest2).map (c :: ·)
  termination_by l => l.length
  decreasing_by
    simp only [List.length_cons]
    have hlen : rest2.length ≤ rest.length := by
      rcases rest with - | ⟨b1, - | ⟨b2, - | ⟨b3, rest3⟩⟩⟩ <;>
          unfold decodeOneChar at h <;>
          (try dsimp only [] at h) <;>
          (repeat' split at h) <;>
        first
          | exact Option.noConfusion h
          | (injection h with h2; injection h2 with h3 h4; subst h4;
              (try simp only [List.length_cons]); omega)
    omega

/-- UTF-8 bytes of a string: what Rust's `str::as_bytes` returns. -/
def utf8EncodeString (s : String) : List Nat :=
  s.data.flatMap (fun ch => utf8EncodeCharNat ch.toNat)

/-- Rebuild a string from decoded scalar values (Rust's
`String::from_utf8` result). -/
def natsToString (cs : List Nat) : String := ⟨cs.map Char.ofNat⟩

/-- Embedding of `asset_info_key` (`utils.rs` lines 461-475): one tag byte
(0 for native, 1 for contract) followed by the UTF-8 bytes. -/
def asset_info_key (a : AssetInfo) : List Nat :=
  match a with
  | .native denom => 0 :: utf8EncodeString denom
  | .token contractAddr => 1 :: utf8EncodeString contractAddr

/-- Embedding of `from_key_to_asset_info` (`utils.rs` lines 477-489).
Note the Rust source indexes `bytes[0]` and would panic on an empty key;
the embedding returns the deserialization error in that case, which no
key produced by `asset_info_key` ever hits. -/
def from_key_to_asset_info (bytes : List Nat) : Except String AssetInfo :=
  match bytes with
  | 0 :: rest =>
    match utf8DecodeNats rest with
    | some cs => .ok (.native (natsToString cs))
    | none => .error "invalid utf8"
  | 1 :: rest =>
    match utf8DecodeNats rest with
    | some cs => .ok (.token (natsToString cs))
    | none => .error "invalid utf8"
  | _ => .error "Failed to deserialize asset info key"

/-! Core reward-engine model.  The per-slot and per-user bookkeeping
methods (`PoolInfo::update_rewards`, `calculate_rewards`,
`claim_finished_rewards`, `update_and_sync_position`, ...) live in the
incentives crate's `state.rs`, which is not under `src/`; those are
modelled from the specification (sections 3, 4.1, 4.2, 4.3) and marked as
such.  The handlers that call them (`utils.rs`, `execute.rs`) are
translated from the source. -/

/-- Error type of the incentives contract handlers.  `contract.rs`'s
`ContractError`/`StdError` collapse to the variants the claims need;
`std` carries the message of a `StdError::generic_err`. -/
inductive IncError where
  | std (msg : String)
  | unauthorized
  | amountExceedsBalance (available withdrawAmount : Nat)
  | pdexNotNativeCoin
  | blockedToken (token : AssetInfo)
  | incentivizationFeeExpected (fee : Coin)
deriving DecidableEq, Repr

/-- Reply behaviour of a sub-message (cosmwasm `ReplyOn`, restricted to
the modes the engine uses). -/
inductive ReplyMode where
  | never
  | onError
deriving DecidableEq, Repr

/-- Outgoing message payloads the embedded handlers emit: bank transfer,
cw20 `Transfer`, cw20 `TransferFrom`, and the Paloma token-factory mint. -/
inductive MsgKind where
  | bankSend (toAddress : String) (coins : List Coin)
  | cw20Transfer (contractAddr recipient : String) (amount : Nat)
  | cw20TransferFrom (contractAddr owner recipient : String) (amount : Nat)
  | mintTokens (denom : String) (amount : Nat) (mintToAddress : String)
deriving DecidableEq, Repr

/-- Sub-message: payload plus reply id and mode (cosmwasm `SubMsg`).
`SubMsg::new` corresponds to id 0 and mode `never`. -/
structure SubMsg where
  id : Nat
  replyMode : ReplyMode
  msg : MsgKind
deriving DecidableEq, Repr

/-- Modelled from the spec: the dedicated reply id reserved for reward
transfers (`reply.rs`, `POST_TRANSFER_REPLY_ID`, not under `src/`; the
claims only depend on the reply mode, not on the id's value). -/
def POST_TRANSFER_REPLY_ID : Nat := 1

/-- Embedding of `Asset::into_submsg` (`asset.rs` lines 202-248): native
assets become a bank send, cw20 assets a cw20 transfer; the optional reply
parameters default to `(never, 0)`. -/
def Asset.intoSubmsg (recipient : String) (reply : Option (ReplyMode × Nat))
    (a : Asset) : SubMsg :=
  let rp := reply.getD (ReplyMode.never, 0)
  match a.info with
  | .token c => ⟨rp.2, rp.1, .cw20Transfer c recipient a.amount⟩
  | .native d => ⟨rp.2, rp.1, .bankSend recipient [⟨d, a.amount⟩]⟩

/-- Embedding of `Asset::into_msg` (`asset.rs` lines 178-197) followed by
`Response::add_message`, which wraps the message with `SubMsg::new`
(id 0, no reply). -/
def Asset.intoMsg (recipient : String) (a : Asset) : SubMsg :=
  match a.info with
  | .token c => ⟨0, .never, .cw20Transfer c recipient a.amount⟩
  | .native d => ⟨0, .never, .bankSend recipient [⟨d, a.amount⟩]⟩

/-- Modelled from the spec (section 3, Schedule): a queued external
schedule; when it takes over, the slot adopts its reward-per-second and
its end as the next update time. -/
structure Sched where
  rpsAtomics : Nat
  endTs : Nat
deriving DecidableEq, Repr

/-- Modelled from the spec (section 3, RewardSlot): one reward stream of a
pool.  `isExternal` is the `RewardType` tag (`types.rs`), `info` its
asset; `rps`, `index` and `orphaned` are `Decimal256` atomics;
`nextUpdateTs` and the schedule queue are meaningful for external slots
only. -/
structure RewardSlot where
  isExternal : Bool
  info : AssetInfo
  rpsAtomics : Nat
  indexAtomics : Nat
  orphanedAtomics : Nat
  nextUpdateTs : Nat
  queue : List Sched
deriving DecidableEq, Repr

/-- Modelled from the spec (section 3, PoolState): staked total, last
update time, and the ordered reward slots. -/
structure PoolInfo where
  totalStaked : Nat
  lastUpdateTs : Nat
  rewards : List RewardSlot
deriving DecidableEq, Repr

/-- Modelled from the spec (section 3, UserPosition): staked amount and
the per-slot index snapshots; `finishedRewards` stands for the amounts
`claim_finished_rewards` (in the absent `state.rs`) returns for schedules
that finished since the user's last sync. -/
structure UserInfo where
  amount : Nat
  snapshots : List ((Bool × AssetInfo) × Nat)
  finishedRewards : List Asset
deriving DecidableEq, Repr

/-- Modelled from the spec (section 4.2): accrue one constant-rate segment
of length `dt`; with stake the index grows by `rps * dt / staked`
(flooring at atomics as `Decimal256` division does), without stake the
emission goes to the orphan accumulator. -/
def accrueSlot (staked dt rps idx orph : Nat) : Nat × Nat :=
  if staked = 0 then (idx, orph + rps * dt)
  else (idx + rps * dt / staked, orph)

/-- Modelled from the spec (section 4.2, step 2): advance an external slot
from `last` to `now`, splitting at every `next_update_ts` boundary inside
`(last, now]` and rotating the schedule queue at each boundary; an empty
queue sets the reward rate to zero. -/
def updateExtSlot (staked now : Nat) (last rps idx orph nextUpd : Nat) :
    List Sched → Nat × Nat × Nat × Nat × List Sched
  | [] =>
    if last < nextUpd ∧ nextUpd ≤ now then
      let a := accrueSlot staked (nextUpd - last) rps idx orph
      (0, a.1, a.2, nextUpd, [])
    else
      let a := accrueSlot staked (now - last) rps idx orph
      (rps, a.1, a.2, nextUpd, [])
  | s :: restQ =>
    if last < nextUpd ∧ nextUpd ≤ now then
      let a := accrueSlot staked (nextUpd - last) rps idx orph
      updateExtSlot staked now nextUpd s.rpsAtomics a.1 a.2 s.endTs restQ
    else
      let a := accrueSlot staked (now - last) rps idx orph
      (rps, a.1, a.2, nextUpd, s :: restQ)

/-- Modelled from the spec (section 4.2): advance a single slot from
`last` to `now`; the protocol slot is one segment at the current rate,
external slots split at schedule boundaries. -/
def RewardSlot.updateTo (staked last now : Nat) (s : RewardSlot) : RewardSlot :=
  if s.isExternal then
    let r := updateExtSlot staked now last s.rpsAtomics s.indexAtomics
      s.orphanedAtomics s.nextUpdateTs s.queue
    { s with
      rpsAtomics := r.1
      indexAtomics := r.2.1
      orphanedAtomics := r.2.2.1
      nextUpdateTs := r.2.2.2.1
      queue := r.2.2.2.2 }
  else
    let a := accrueSlot staked (now - last) s.rpsAtomics s.indexAtomics s.orphanedAtomics
    { s with indexAtomics := a.1, orphanedAtomics := a.2 }

/-- Modelled from the spec (section 4.2, `update_rewards` in the absent
`state.rs`): if no time passed do nothing, otherwise advance every slot
and set `last_update_ts := now`. -/
def PoolInfo.updateRewards (now : Nat) (p : PoolInfo) : PoolInfo :=
  if now - p.lastUpdateTs = 0 then p
  else
    { p with
      rewards := p.rewards.map (RewardSlot.updateTo p.totalStaked p.lastUpdateTs now),
      lastUpdateTs := now }

/-- Modelled from the spec (section 4.3): a slot is finished when it is
external with no live rate and no queued schedule. -/
def RewardSlot.isFinished (s : RewardSlot) : Bool :=
  s.isExternal && s.rpsAtomics == 0 && s.queue.isEmpty

/-- Reward-stream identity of a slot: the `RewardType` tag together with
the asset (what `RewardType::matches` compares). -/
def RewardSlot.refKey (s : RewardSlot) : Bool × AssetInfo := (s.isExternal, s.info)

/-- Snapshot index a user holds for a reward stream, zero when absent
(spec section 4.3, step 2). -/
def UserInfo.snapshotAt (u : UserInfo) (k : Bool × AssetInfo) : Nat :=
  (u.snapshots.lookup k).getD 0

/-- Modelled from the spec (invariant I3): pending reward of a user for a
slot, `floor(amount * (index - snapshot))` converted to integer units. -/
def pendingAmount (u : UserInfo) (s : RewardSlot) : Nat :=
  u.amount * (s.indexAtomics - u.snapshotAt s.refKey) / ONE_ATOMICS

/-- Modelled from the spec (section 4.3, `calculate_rewards` in the
absent `state.rs`): the pending reward of every slot with its
external/protocol tag, in slot order. -/
def PoolInfo.calculateRewards (p : PoolInfo) (u : UserInfo) : List (Bool × Asset) :=
  p.rewards.map (fun s => (s.isExternal, ⟨s.info, pendingAmount u s⟩))

/-- Amount operation of `update_and_sync_position` (`state.rs`'s `Op`). -/
inductive Op where
  | noop
  | add (d : Nat)
  | sub (d : Nat)
deriving DecidableEq, Repr

/-- Modelled from the spec (section 4.3, `update_and_sync_position` in the
absent `state.rs`): apply the amount operation to the user and the pool's
staked total, set the user's snapshots to the current index of every
unfinished slot (finished entries are dropped), and clear the consumed
finished rewards. -/
def UserInfo.updateAndSyncPosition (op : Op) (p : PoolInfo) (u : UserInfo) :
    PoolInfo × UserInfo :=
  let newAmount :=
    match op with
    | .noop => u.amount
    | .add d => u.amount + d
    | .sub d => u.amount - d
  let newStaked :=
    match op with
    | .noop => p.totalStaked
    | .add d => p.totalStaked + d
    | .sub d => p.totalStaked - d
  ({ p with totalStaked := newStaked },
   { amount := newAmount,
     snapshots := (p.rewards.filter (fun s => !s.isFinished)).map
       (fun s => (s.refKey, s.indexAtomics)),
     finishedRewards := [] })

/-- Per-pool loop of `claim_rewards` (`utils.rs` lines 36-66): update the
pool, collect the non-zero finished rewards, then the non-zero pending
rewards (externals into the transfer list, protocol into the mint total),
and sync the position with `Op::Noop`.  Returns the collected external
reward sequence, the protocol total, and the updated tuples. -/
def claimPools (now : Nat) :
    List (AssetInfo × PoolInfo × UserInfo) →
      List Asset × Nat × List (AssetInfo × PoolInfo × UserInfo)
  | [] => ([], 0, [])
  | (lp, p, u) :: rest =>
    let p2 := p.updateRewards now
    let fin := u.finishedRewards.filter (fun a => a.amount ≠ 0)
    let calcd := p2.calculateRewards u
    let ext := calcd.filterMap (fun r => if r.2.amount ≠ 0 ∧ r.1 then some r.2 else none)
    let proto := (calcd.map (fun r => if r.2.amount ≠ 0 ∧ !r.1 then r.2.amount else 0)).sum
    let pu := UserInfo.updateAndSyncPosition .noop p2 u
    let r := claimPools now rest
    (fin ++ ext ++ r.1, proto + r.2.1, (lp, pu.1, pu.2) :: r.2.2)

/-- Embedding of the `chunk_by(asset.info)` aggregation of `claim_rewards`
(`utils.rs` lines 70-79): `itertools::chunk_by` groups *consecutive*
entries with equal key; each maximal run becomes one `(info, summed
amount)` pair, in order. -/
def groupRuns : List Asset → List (AssetInfo × Nat)
  | [] => []
  | a :: rest =>
    match groupRuns rest with
    | [] => [(a.info, a.amount)]
    | (k, t) :: more =>
      if a.info = k then (k, a.amount + t) :: more
      else (a.info, a.amount) :: (k, t) :: more

/-- Embedding of `claim_rewards` (`utils.rs` lines 27-104): collect the
rewards of every claimed pool, aggregate consecutive runs of equal asset
into transfer sub-messages with reply-on-error, and append the
token-factory mint for a non-zero protocol total (erroring when the
protocol token is not native).  Returns the response's sub-messages, the
protocol total, and the updated pool/user tuples. -/
def claimRewards (now : Nat) (user : String) (pdexToken : AssetInfo)
    (tuples : List (AssetInfo × PoolInfo × UserInfo)) :
    Except IncError (List SubMsg × Nat × List (AssetInfo × PoolInfo × UserInfo)) :=
  let r := claimPools now tuples
  let transfers := (groupRuns r.1).map
    (fun g => Asset.intoSubmsg user (some (.onError, POST_TRANSFER_REPLY_ID)) ⟨g.1, g.2⟩)
  if r.2.1 = 0 then .ok (transfers, r.2.1, r.2.2)
  else
    match pdexToken with
    | .native denom =>
      .ok (transfers ++ [⟨0, .never, .mintTokens denom r.2.1 user⟩], r.2.1, r.2.2)
    | .token _ => .error .pdexNotNativeCoin

/-- Embedding of `deposit` (`execute.rs` lines 173-221).  The factory
registration query is abstracted by the `poolRegistered` flag; the claimed
properties concern the message list and the staked amounts. -/
def deposit (now : Nat) (pdexToken : AssetInfo) (poolRegistered : Bool)
    (lpInfo : AssetInfo) (amount : Nat) (p : PoolInfo) (u : UserInfo)
    (staker : String) :
    Except IncError (List SubMsg × PoolInfo × UserInfo) :=
  if !poolRegistered then .error (.std "The pair is not registered")
  else
    match claimRewards now staker pdexToken [(lpInfo, p, u)] with
    | .error e => .error e
    | .ok (msgs, _, tuples) =>
      match tuples with
      | [(_, p2, u2)] =>
        let pu := UserInfo.updateAndSyncPosition (.add amount) p2 u2
        .ok (msgs, pu.1, pu.2)
      | _ => .error (.std "unreachable: claim_rewards preserves the tuple count")

/-- Embedding of `withdraw` (`execute.rs` lines 223-277).  The final
`Bool` is true when the position was deleted from storage (the source's
`user_info.remove`) rather than saved; the returned `UserInfo` is the
in-memory position at that moment, whose snapshots the deletion decision
of the claim refers to.  The LP-token return transfer is appended after
the claim response's messages. -/
def withdraw (now : Nat) (pdexToken : AssetInfo) (lpInfo : AssetInfo)
    (amount : Nat) (p : PoolInfo) (u : UserInfo) (sender user : String) :
    Except IncError (List SubMsg × PoolInfo × UserInfo × Bool) :=
  if u.amount < amount then .error (.amountExceedsBalance u.amount amount)
  else
    match claimRewards now user pdexToken [(lpInfo, p, u)] with
    | .error e => .error e
    | .ok (msgs, _, tuples) =>
      match tuples with
      | [(_, p2, u2)] =>
        let pu := UserInfo.updateAndSyncPosition (.sub amount) p2 u2
        .ok (msgs ++ [Asset.intoMsg sender ⟨lpInfo, amount⟩], pu.1, pu.2,
             pu.2.amount == 0)
      | _ => .error (.std "unreachable: claim_rewards preserves the tuple count")

/-! Active set and token blocklist (claim C4). -/

/-- Configuration fields of the incentives contract relevant to the
active-pool claims (`types.rs`, `Config`; the source's doc comment on
`total_alloc_points` states it must be the sum of all allocation points in
all active generators). -/
structure IncConfig where
  owner : String
  padexToken : AssetInfo
  padexPerSecond : Nat
  totalAllocPoints : Nat
deriving DecidableEq, Repr

/-- Storage touched by the blocklist handler: the config singleton, the
`BLOCKED_TOKENS` key set, and the `ACTIVE_POOLS` list of
`(lp token, alloc points)`. -/
structure IncState where
  config : IncConfig
  blockedTokens : List AssetInfo
  activePools : List (AssetInfo × Nat)
deriving DecidableEq, Repr

/-- Removal loop of `update_blocked_pool_tokens` (`execute.rs` lines
452-462): every token to remove must currently be blocked. -/
def removeBlockedLoop : List AssetInfo → List AssetInfo → Except IncError (List AssetInfo)
  | blocked, [] => .ok blocked
  | blocked, a :: rest =>
    if a ∈ blocked then removeBlockedLoop (blocked.erase a) rest
    else .error (.std "Token wasn't found in the blocked list")

/-- Addition loop of `update_blocked_pool_tokens` (`execute.rs` lines
477-500): each token must not be blocked yet and must not be the protocol
token; every active pool whose pair contains the token is pushed onto the
disable list — once per such token, so a pool whose pair has two newly
blocked tokens is pushed twice, exactly as the source does. -/
def addBlockedLoop (padex : AssetInfo)
    (activeWith : List (AssetInfo × List AssetInfo × Nat)) :
    List AssetInfo → List AssetInfo → List (AssetInfo × Nat) →
      Except IncError (List AssetInfo × List (AssetInfo × Nat))
  | blocked, [], toDisable => .ok (blocked, toDisable)
  | blocked, tok :: rest, toDisable =>
    if tok ∈ blocked then .error (.std "Token is already in the blocked list")
    else if tok = padex then .error (.std "Blocking PADEX token is prohibited")
    else
      addBlockedLoop padex activeWith (tok :: blocked) rest
        (toDisable ++ activeWith.filterMap
          (fun e => if tok ∈ e.2.1 then some (e.1, e.2.2) else none))

/-- Embedding of `update_blocked_pool_tokens` (`execute.rs` lines
431-546).  `pairAssets` stands for the factory's `query_pair_info`
answers.  The per-pool `PoolInfo` reward-rate updates
(`disable_padex_rewards` / `set_padex_rewards`) do not touch the claimed
quantities (the stored active list and `total_alloc_points`) and are not
tracked here.  Note `reduce_total_alloc_points` sums the disable list with
its duplicates before `checked_sub`, and the message only fails when that
subtraction underflows. -/
def update_blocked_pool_tokens (pairAssets : AssetInfo → List AssetInfo)
    (sender : String) (st : IncState) (add remove : List AssetInfo) :
    Except IncError IncState :=
  if sender ≠ st.config.owner then .error .unauthorized
  else if ¬ (remove ++ add).Nodup then .error (.std "Duplicated tokens found")
  else
    match removeBlockedLoop st.blockedTokens remove with
    | .error e => .error e
    | .ok blocked1 =>
      if add.isEmpty then .ok { st with blockedTokens := blocked1 }
      else
        let activeWith := st.activePools.map (fun e => (e.1, pairAssets e.1, e.2))
        match addBlockedLoop st.config.padexToken activeWith blocked1 add [] with
        | .error e => .error e
        | .ok (blocked2, toDisable) =>
          if toDisable.isEmpty then .ok { st with blockedTokens := blocked2 }
          else
            let reduce := (toDisable.map (fun d => d.2)).sum
            if st.config.totalAllocPoints < reduce then
              .error (.std "checked_sub overflow on total_alloc_points")
            else
              .ok { config :=
                      { st.config with
                        totalAllocPoints := st.config.totalAllocPoints - reduce }
                    blockedTokens := blocked2
                    activePools := activeWith.filterMap (fun e =>
                      if toDisable.any (fun d => d.1 = e.1) then none
                      else some (e.1, e.2.2)) }

/-! Incentivize handler and the incentivization fee (claim C7). -/

/-- Fee configuration for adding a new external reward
(`types.rs`, `IncentivizationFeeInfo`). -/
structure IncentivizationFeeInfo where
  feeReceiver : String
  fee : Coin
deriving DecidableEq, Repr

/-- Fee deduction of `incentivize` (`utils.rs` lines 256-284): find the
first coin with the fee denom, subtract the fee (erroring on underflow,
i.e. when the sent amount is below the fee), and drop the coin when it
reaches zero; `none` also when no coin with the fee denom exists — both
`none` causes map to the `IncentivizationFeeExpected` error. -/
def deductFee (fee : Coin) : List Coin → Option (List Coin)
  | [] => none
  | c :: rest =>
    if c.denom = fee.denom then
      if c.amount < fee.amount then none
      else if c.amount - fee.amount = 0 then some rest
      else some (⟨c.denom, c.amount - fee.amount⟩ :: rest)
    else (deductFee fee rest).map (c :: ·)

/-- First loop of `assert_coins_properly_sent` (`asset.rs` lines 308-333):
every input asset must be a pool asset, and for native inputs the sent
coin with that denom (defaulting to zero) must carry exactly the declared
amount. -/
def checkInputAssets (funds : List Coin) (poolAssetInfos : List AssetInfo) :
    List Asset → Except IncError Unit
  | [] => .ok ()
  | input :: rest =>
    if input.info ∈ poolAssetInfos then
      match input.info with
      | .native denom =>
        if ((funds.find? (fun c => c.denom = denom)).getD ⟨denom, 0⟩).amount ≠
            input.amount then
          .error (.std "Native token balance mismatch between the argument and the transferred")
        else checkInputAssets funds poolAssetInfos rest
      | .token _ => checkInputAssets funds poolAssetInfos rest
    else .error (.std "Asset is not in the pool")

/-- Second loop of `assert_coins_properly_sent` (`asset.rs` lines
335-346): every sent coin's denom must appear among the pool assets. -/
def checkSentCoins (poolAssetInfos : List AssetInfo) :
    List Coin → Except IncError Unit
  | [] => .ok ()
  | c :: rest =>
    if (AssetInfo.native c.denom) ∈ poolAssetInfos then
      checkSentCoins poolAssetInfos rest
    else .error (.std "Supplied coins contain a denom that is not in the input asset vector")

/-- Embedding of `assert_coins_properly_sent` (`asset.rs` lines 292-348). -/
def assertCoinsProperlySent (funds : List Coin) (inputAssets : List Asset)
    (poolAssetInfos : List AssetInfo) : Except IncError Unit :=
  if inputAssets.isEmpty then .error (.std "Empty input assets")
  else if ¬ (inputAssets.map (fun a => a.info)).Nodup then
    .error (.std "Duplicated assets in the input")
  else
    match checkInputAssets funds poolAssetInfos inputAssets with
    | .error e => .error e
    | .ok _ => checkSentCoins poolAssetInfos funds

/-- Modelled from the spec (section 4.1, merging policy): register a new
schedule on the slot matching its reward ref; if the current schedule is
still live (`now < next_update_ts`) the schedule is queued, otherwise the
slot adopts the new rate with `next_update_ts = end_ts`.  Returns `none`
when no matching external slot exists. -/
def addToMatchingSlot (now : Nat) (s : IncentivesSchedule) :
    List RewardSlot → Option (List RewardSlot)
  | [] => none
  | slot :: rest =>
    if slot.isExternal ∧ slot.info = s.rewardInfo then
      if now < slot.nextUpdateTs then
        some ({ slot with queue := slot.queue ++ [⟨s.rpsAtomics, s.endTs⟩] } :: rest)
      else
        some ({ slot with rpsAtomics := s.rpsAtomics, nextUpdateTs := s.endTs } :: rest)
    else (addToMatchingSlot now s rest).map (slot :: ·)

/-- Modelled from the spec (sections 3 and 4.1, `PoolInfo::incentivize` in
the absent `state.rs`): merge into an existing matching slot, or append a
fresh external slot subject to the `MAX_REWARD_TOKENS` cap. -/
def PoolInfo.incentivizePool (now : Nat) (p : PoolInfo) (s : IncentivesSchedule) :
    Except IncError PoolInfo :=
  match addToMatchingSlot now s p.rewards with
  | some rewards2 => .ok { p with rewards := rewards2 }
  | none =>
    if p.rewards.length < MAX_REWARD_TOKENS then
      .ok { p with rewards := p.rewards ++ [⟨true, s.rewardInfo, s.rpsAtomics, 0, 0, s.endTs, []⟩] }
    else .error (.std "Too many reward tokens")

/-- Embedding of `incentivize` (`utils.rs` lines 211-309).  The factory
registration query is abstracted by the `poolRegistered` flag;
`contractAddr` is the engine's own address (recipient of cw20
`TransferFrom`).  When the schedule introduces a new reward token
(`rewards_number_before < rewards.len()`) and a fee is configured, the
fee is deducted from the funds and forwarded to the fee receiver; then
native rewards must be covered exactly by the remaining funds, while cw20
rewards produce a `TransferFrom` message. -/
def incentivize (now : Nat) (contractAddr : String)
    (blockedTokens : List AssetInfo) (poolRegistered : Bool)
    (feeInfo : Option IncentivizationFeeInfo) (p : PoolInfo)
    (sender : String) (funds : List Coin) (input : InputSchedule) :
    Except IncError (List SubMsg × PoolInfo) :=
  match IncentivesSchedule.fromInput now input with
  | .error e => .error (.std e)
  | .ok schedule =>
    if schedule.rewardInfo ∈ blockedTokens then
      .error (.blockedToken schedule.rewardInfo)
    else if ¬ poolRegistered then .error (.std "The pair is not registered")
    else
      let p1 := p.updateRewards now
      match p1.incentivizePool now schedule with
      | .error e => .error e
      | .ok p2 =>
        let feeStep : Except IncError (List Coin × List SubMsg) :=
          if p1.rewards.length < p2.rewards.length then
            match feeInfo with
            | some fi =>
              match deductFee fi.fee funds with
              | some funds2 =>
                .ok (funds2, [⟨0, .never, .bankSend fi.feeReceiver [fi.fee]⟩])
              | none => .error (.incentivizationFeeExpected fi.fee)
            | none => .ok (funds, [])
          else .ok (funds, [])
        match feeStep with
        | .error e => .error e
        | .ok (funds2, feeMsgs) =>
          match schedule.rewardInfo with
          | .token c =>
            .ok (feeMsgs ++
              [⟨0, .never, .cw20TransferFrom c sender contractAddr input.reward.amount⟩], p2)
          | .native _ =>
            match assertCoinsProperlySent funds2 [input.reward] [schedule.rewardInfo] with
            | .ok _ => .ok (feeMsgs, p2)
            | .error e => .error e

/-! Ownership handoff protocol (claim C8). -/

/-- Ownership proposal (`types.rs`, `OwnershipProposal`): proposed owner
and absolute expiry timestamp. -/
structure OwnershipProposal where
  owner : String
  ttl : Nat
deriving DecidableEq, Repr

/-- Owner plus the optional pending proposal
(`CONFIG.owner` and `OWNERSHIP_PROPOSAL`). -/
structure OwnershipState where
  owner : String
  proposal : Option OwnershipProposal
deriving DecidableEq, Repr

/-- Embedding of `propose_new_owner` (`utils.rs` lines 491-533). -/
def propose_new_owner (sender newOwner : String) (expiresIn now : Nat)
    (st : OwnershipState) : Except IncError OwnershipState :=
  if sender ≠ st.owner then .error (.std "Unauthorized")
  else if newOwner = st.owner then .error (.std "New owner cannot be same")
  else if MAX_PROPOSAL_TTL < expiresIn then
    .error (.std "Parameter expires_in cannot be higher than MAX_PROPOSAL_TTL")
  else .ok { st with proposal := some ⟨newOwner, now + expiresIn⟩ }

/-- Embedding of `drop_ownership_proposal` (`utils.rs` lines 535-552). -/
def drop_ownership_proposal (sender : String) (st : OwnershipState) :
    Except IncError OwnershipState :=
  if sender ≠ st.owner then .error (.std "Unauthorized")
  else .ok { st with proposal := none }

/-- Embedding of `claim_ownership` (`utils.rs` lines 554-586) together
with its callback in `execute.rs` (lines 155-165), which stores the
proposed owner as the new owner. -/
def claim_ownership (sender : String) (now : Nat) (st : OwnershipState) :
    Except IncError OwnershipState :=
  match st.proposal with
  | none => .error (.std "Ownership proposal not found")
  | some p =>
    if sender ≠ p.owner then .error (.std "Unauthorized")
    else if p.ttl < now then .error (.std "Ownership proposal expired")
    else .ok { owner := p.owner, proposal := none }

/-! Time-weighted lock engine, the vepdex contract (claims C6 and C9).
The handlers are translated from `contracts/vepdex/src/contract.rs`; the
`UserLockedBalance` helper methods and constants live in the absent
`state.rs`/`staking.rs` and are modelled from the specification
(section 4.8).  The global slope/bias propagation of `update_user_lock`
does not affect the claimed properties and is not tracked. -/

/-- Modelled from the spec: seconds per week, the snapping granularity of
lock end times (`SECONDS_PER_WEEK = 604 800`). -/
def SECONDS_PER_WEEK : Nat := 604800

/-- Modelled from the spec: maximal lock length in weeks
(`MAX_WEEKS`, about four years of 52 weeks). -/
def MAX_WEEKS : Nat := 4 * 52

/-- Modelled from the spec: maximal lock length in seconds. -/
def MAX_SECONDS : Nat := MAX_WEEKS * SECONDS_PER_WEEK

/-- Error type of the vepdex contract (`error.rs`, restricted to the
variants the lock handlers produce). -/
inductive VeError where
  | contractsCannotInteractWithLocks
  | lockAlreadyExists
  | lockDoesNotExist
  | lockIsExpired
  | insufficientLockAmount
  | insufficientLockIncreaseAmount
  | endLockTimeTooEarly
  | endLockTimeTooLate (maxWeeks lockDurationInWeeks : Nat)
deriving DecidableEq, Repr

/-- Lock record of a user (`state.rs`, `UserLockedBalance`, reconstructed
from its uses in `contract.rs`): deposit, decay window, and the history
timestamp. -/
structure UserLockedBalance where
  depositedAmount : Nat
  endLockTime : Nat
  startLockTime : Nat
  timestamp : Nat
deriving DecidableEq, Repr

/-- Default lock record (`unwrap_or_default()`): all zero. -/
def UserLockedBalance.zero : UserLockedBalance := ⟨0, 0, 0, 0⟩

/-- Modelled from the spec: a lock is void or undefined when nothing is
deposited (withdrawing voids the lock by zeroing it). -/
def UserLockedBalance.isVoidOrUndefined (b : UserLockedBalance) : Bool :=
  b.depositedAmount == 0

/-- Modelled from the spec: `exists()` — an old lock is still present
until withdrawn. -/
def UserLockedBalance.existsLock (b : UserLockedBalance) : Bool :=
  !b.isVoidOrUndefined

/-- Modelled from the spec: a lock is expired at `t` once its decay window
has ended. -/
def UserLockedBalance.expiredAtTimestamp (b : UserLockedBalance) (t : Nat) : Bool :=
  b.endLockTime ≤ t

/-- Modelled from the spec (section 4.8):
`locked_amount(t) = deposit * max(0, end - t) / (end - start)` (the `max`
is the truncating subtraction). -/
def UserLockedBalance.lockedAmountAtTimestamp (b : UserLockedBalance) (t : Nat) : Nat :=
  b.depositedAmount * (b.endLockTime - t) / (b.endLockTime - b.startLockTime)

/-- Voided lock carrying only the history timestamp
(`UserLockedBalance::void_lock_with_timestamp`). -/
def UserLockedBalance.voidLockWithTimestamp (t : Nat) : UserLockedBalance :=
  ⟨0, 0, 0, t⟩

/-- Embedding of `execute_create_lock` (`contract.rs` lines 81-151).
`isContract` is the host's "can this address be queried as a contract"
capability; `amount` is the locked-denom amount found in the sent funds.
Note the snapping `end_lock_time / SECONDS_PER_WEEK * SECONDS_PER_WEEK`
happens before any validation. -/
def execute_create_lock (isContract : Bool) (now : Nat)
    (prev : UserLockedBalance) (amount endLockTime : Nat) :
    Except VeError UserLockedBalance :=
  let endSnapped := endLockTime / SECONDS_PER_WEEK * SECONDS_PER_WEEK
  if isContract then .error .contractsCannotInteractWithLocks
  else if prev.existsLock then .error .lockAlreadyExists
  else if amount = 0 then .error .insufficientLockAmount
  else if endSnapped ≤ now then .error .endLockTimeTooEarly
  else if now + MAX_SECONDS < endSnapped then
    .error (.endLockTimeTooLate MAX_WEEKS ((endSnapped - now) / MAX_WEEKS))
  else .ok ⟨amount, endSnapped, now, now⟩

/-- Embedding of `execute_increase_lock_amount` (`contract.rs` lines
153-208). -/
def execute_increase_lock_amount (isContract : Bool) (now : Nat)
    (prev : UserLockedBalance) (increaseAmount : Nat) :
    Except VeError UserLockedBalance :=
  if isContract then .error .contractsCannotInteractWithLocks
  else if prev.isVoidOrUndefined then .error .lockDoesNotExist
  else if prev.expiredAtTimestamp now then .error .lockIsExpired
  else if increaseAmount = 0 then .error .insufficientLockIncreaseAmount
  else .ok ⟨prev.depositedAmount + increaseAmount, prev.endLockTime, now, now⟩

/-- Embedding of `execute_withdraw` (`contract.rs` lines 210-282): an
expired lock pays the full deposit and is voided; otherwise the unlocked
part is paid out, voiding the lock when it happens to be the whole
deposit.  The payout message is `send_coin` from the absent `staking.rs`,
modelled from the spec as a bank transfer of the withdrawn amount. -/
def execute_withdraw (isContract : Bool) (now : Nat)
    (prev : UserLockedBalance) (lockDenom user : String) :
    Except VeError (UserLockedBalance × Nat × SubMsg) :=
  if isContract then .error .contractsCannotInteractWithLocks
  else if prev.isVoidOrUndefined then .error .lockDoesNotExist
  else if prev.expiredAtTimestamp now then
    .ok (UserLockedBalance.voidLockWithTimestamp now, prev.depositedAmount,
      ⟨0, .never, .bankSend user [⟨lockDenom, prev.depositedAmount⟩]⟩)
  else
    let locked := prev.lockedAmountAtTimestamp now
    let unlocked := prev.depositedAmount - locked
    if unlocked = prev.depositedAmount then
      .ok (UserLockedBalance.voidLockWithTimestamp now, unlocked,
        ⟨0, .never, .bankSend user [⟨lockDenom, unlocked⟩]⟩)
    else
      .ok (⟨locked, prev.endLockTime, now, now⟩, unlocked,
        ⟨0, .never, .bankSend user [⟨lockDenom, unlocked⟩]⟩)

/-- Embedding of `execute_increase_end_lock_time` (`contract.rs` lines
284-348). -/
def execute_increase_end_lock_time (isContract : Bool) (now : Nat)
    (prev : UserLockedBalance) (newEndLockTime : Nat) :
    Except VeError UserLockedBalance :=
  let endSnapped := newEndLockTime / SECONDS_PER_WEEK * SECONDS_PER_WEEK
  if isContract then .error .contractsCannotInteractWithLocks
  else if prev.isVoidOrUndefined then .error .lockDoesNotExist
  else if prev.expiredAtTimestamp now then .error .lockIsExpired
  else if endSnapped ≤ prev.endLockTime then .error .endLockTimeTooEarly
  else if now + MAX_SECONDS < endSnapped then
    .error (.endLockTimeTooLate MAX_WEEKS ((endSnapped - now) / MAX_WEEKS))
  else .ok ⟨prev.depositedAmount, endSnapped, now, now⟩

/-! Observation helpers and concrete scenarios used to settle the claims. -/

/-- A message kind is a transfer when it moves existing balance (bank send
or cw20 transfer), as opposed to the token-factory mint. -/
def MsgKind.isTransfer : MsgKind → Bool
  | .bankSend _ _ => true
  | .cw20Transfer _ _ _ => true
  | .cw20TransferFrom _ _ _ _ => true
  | .mintTokens _ _ _ => false

/-- Amount of asset `k` a single sub-message transfers. -/
def SubMsg.amountFor (k : AssetInfo) (m : SubMsg) : Nat :=
  match k, m.msg with
  | .native d, .bankSend _ coins =>
    ((coins.filter (fun c => c.denom = d)).map (fun c => c.amount)).sum
  | .token a, .cw20Transfer c _ amt => if c = a then amt else 0
  | _, _ => 0

/-- Total amount of asset `k` transferred by a message list. -/
def transferTotal (k : AssetInfo) (msgs : List SubMsg) : Nat :=
  (msgs.map (SubMsg.amountFor k)).sum

/-- Total amount of asset `k` in an asset list. -/
def assetTotal (k : AssetInfo) (l : List Asset) : Nat :=
  ((l.filter (fun a => a.info = k)).map (fun a => a.amount)).sum

/-- Total amount for key `k` in a grouped run list. -/
def runTotal (k : AssetInfo) (gl : List (AssetInfo × Nat)) : Nat :=
  ((gl.filter (fun g => g.1 = k)).map (fun g => g.2)).sum

/-- Scenario for claim C2: two pools reward the external token `tka`, and
the first pool also rewards `tkb` in a later slot, so the collected reward
sequence is `tka, tkb, tka` — the repeated asset is not consecutive.  Both
pools are already updated (`last_update_ts = 100`). -/
def c2Tuples : List (AssetInfo × PoolInfo × UserInfo) :=
  [(.native "ulpa",
    ⟨1, 100, [⟨true, .native "tka", ONE_ATOMICS, 2 * ONE_ATOMICS, 0, 200, []⟩,
              ⟨true, .native "tkb", ONE_ATOMICS, 2 * ONE_ATOMICS, 0, 200, []⟩]⟩,
    ⟨1, [], []⟩),
   (.native "ulpb",
    ⟨1, 100, [⟨true, .native "tka", ONE_ATOMICS, 3 * ONE_ATOMICS, 0, 200, []⟩]⟩,
    ⟨1, [], []⟩)]

/-- Messages `claim_rewards` produces on the C2 scenario: three transfers,
two of them for `tka`. -/
def c2Msgs : List SubMsg :=
  [⟨POST_TRANSFER_REPLY_ID, .onError, .bankSend "bob" [⟨"tka", 2⟩]⟩,
   ⟨POST_TRANSFER_REPLY_ID, .onError, .bankSend "bob" [⟨"tkb", 2⟩]⟩,
   ⟨POST_TRANSFER_REPLY_ID, .onError, .bankSend "bob" [⟨"tka", 3⟩]⟩]

/-- Scenario for claim C3: a pool with only the protocol slot and a
pending protocol reward of 2 units. -/
def c3Pool : PoolInfo := ⟨1, 100, [⟨false, .native "updex", 0, 2 * ONE_ATOMICS, 0, 0, []⟩]⟩

/-- User of the C3 scenario. -/
def c3User : UserInfo := ⟨1, [], []⟩

/-- Scenario for claim C5: a pool with one live external slot (non-zero
rate) and a user whose pending amount is zero. -/
def c5Pool : PoolInfo := ⟨1, 100, [⟨true, .native "tka", ONE_ATOMICS, 0, 0, 200, []⟩]⟩

/-- User of the C5 scenario, holding a snapshot for the live slot. -/
def c5User : UserInfo := ⟨1, [((true, .native "tka"), 0)], []⟩

/-- Pair-asset environment of the C4 scenario: pool `ulpp` pairs the two
tokens about to be blocked, pool `ulpq` pairs two unrelated tokens. -/
def c4PairAssets : AssetInfo → List AssetInfo := fun lp =>
  if lp = .native "ulpp" then [.native "tokx", .native "toky"]
  else [.native "toka", .native "tokb"]

/-- Storage of the C4 scenario: two active pools with 100 and 200
allocation points and a consistent total of 300. -/
def c4State : IncState :=
  ⟨⟨"owner", .native "updex", 0, 300⟩, [],
   [(.native "ulpp", 100), (.native "ulpq", 200)]⟩

/-- Result state of the C4 scenario: pool `ulpp` was removed (100 points)
but `total_alloc_points` dropped by 200 because the pool was disabled once
per blocked token it pairs. -/
def c4Result : IncState :=
  ⟨⟨"owner", .native "updex", 0, 100⟩,
   [.native "toky", .native "tokx"], [(.native "ulpq", 200)]⟩

/-- Fee configuration of the C7 scenario. -/
def c7FeeInfo : IncentivizationFeeInfo := ⟨"feerecv", ⟨"ufee", 5⟩⟩

/-- Input schedule of the C7 scenario: 10^12 units of a native reward over
one period. -/
def c7Input : InputSchedule := ⟨⟨.native "urew", 10 ^ 12⟩, 1⟩

/-- Funds of the C7 scenario: the fee coin plus the exact reward coin. -/
def c7Funds : List Coin := [⟨"ufee", 5⟩, ⟨"urew", 10 ^ 12⟩]

/-- Empty pool of the C7 scenario (created lazily by `Incentivize`). -/
def c7Pool : PoolInfo := ⟨0, 0, []⟩

/-! Theorems: the claims settled against the embedding. -/

/-- Helper lemma: for block times between `EPOCHS_START` and twice
`EPOCHS_START`, the source's `block_ts % EPOCHS_START` coincides with the
subtraction `block_ts - EPOCHS_START` used by the specification. -/
theorem mod_epochs_start_eq_sub (t : Nat) (h1 : EPOCHS_START ≤ t)
    (h2 : t < 2 * EPOCHS_START) : t % EPOCHS_START = t - EPOCHS_START := by
  unfold EPOCHS_START at *; omega

/-- Claim C1, amended: the epoch-alignment formula of the specification is
what `IncentivesSchedule::from_input` computes for every block time `t`
with `EPOCHS_START ≤ t < 2 * EPOCHS_START` (for `t ≥ 2 * EPOCHS_START` the
source's `block_ts % EPOCHS_START` departs from the spec's
`block_ts - EPOCHS_START`): whenever a schedule is produced,
`next_epoch_start_ts` matches the spec formula and
`end_ts = next_epoch_start_ts + duration_periods * EPOCH_LENGTH`. -/
theorem C1_from_input_epoch_alignment (t : Nat) (input : InputSchedule)
    (h1 : EPOCHS_START ≤ t) (h2 : t < 2 * EPOCHS_START)
    (s : IncentivesSchedule)
    (hok : IncentivesSchedule.fromInput t input = .ok s) :
    s.nextEpochStartTs = specNextEpochStart t ∧
      s.endTs = s.nextEpochStartTs + input.durationPeriods * EPOCH_LENGTH := by
  have hrem := mod_epochs_start_eq_sub t h1 h2
  simp only [IncentivesSchedule.fromInput, hrem] at hok
  split at hok
  · exact absurd hok (by simp)
  · split at hok
    case isTrue hb =>
      split at hok
      · exact absurd hok (by simp)
      · injection hok with h
        subst h
        refine ⟨?_, rfl⟩
        simp only [specNextEpochStart, if_pos hb]
    case isFalse hb =>
      split at hok
      · exact absurd hok (by simp)
      · injection hok with h
        subst h
        refine ⟨?_, rfl⟩
        simp only [specNextEpochStart, if_neg hb]
        unfold EPOCHS_START EPOCH_LENGTH at *
        omega

/-- Witness for C1: at the epoch boundary `EPOCHS_START + EPOCH_LENGTH`
with a one-period schedule of 10^12 reward units, the produced schedule
satisfies the amended claim. -/
theorem C1_from_input_epoch_alignment_witness :
    EPOCHS_START ≤ EPOCHS_START + EPOCH_LENGTH ∧
    EPOCHS_START + EPOCH_LENGTH < 2 * EPOCHS_START ∧
    ((⟨EPOCHS_START + EPOCH_LENGTH, EPOCHS_START + 2 * EPOCH_LENGTH,
        .native "urew", 10 ^ 30 / EPOCH_LENGTH⟩ :
        IncentivesSchedule).nextEpochStartTs =
        specNextEpochStart (EPOCHS_START + EPOCH_LENGTH) ∧
      (⟨EPOCHS_START + EPOCH_LENGTH, EPOCHS_START + 2 * EPOCH_LENGTH,
        .native "urew", 10 ^ 30 / EPOCH_LENGTH⟩ :
        IncentivesSchedule).endTs =
        EPOCHS_START + EPOCH_LENGTH + 1 * EPOCH_LENGTH) :=
  ⟨by decide, by decide,
    C1_from_input_epoch_alignment (EPOCHS_START + EPOCH_LENGTH)
      ⟨⟨.native "urew", 10 ^ 12⟩, 1⟩ (by decide) (by decide) _ (by decide)⟩

/-- Counterexample to claim C1 as stated: at block time
`t = 2 * EPOCHS_START` (which the source treats as an epoch boundary
because `t % EPOCHS_START = 0`, although `t - EPOCHS_START` is not a
multiple of `EPOCH_LENGTH`), `from_input` produces a schedule whose
`next_epoch_start_ts` is `t` itself, while the formula of the claim gives
`3393878400 ≠ t`. -/
theorem C1_counterexample :
    ((IncentivesSchedule.fromInput (2 * EPOCHS_START)
        ⟨⟨.native "urew", 10 ^ 12⟩, 1⟩).toOption.map
      (fun s => s.nextEpochStartTs)) = some (2 * EPOCHS_START) ∧
    specNextEpochStart (2 * EPOCHS_START) = 3393878400 ∧
    2 * EPOCHS_START ≠ 3393878400 := by
  refine ⟨by decide, by decide, by decide⟩

set_option maxRecDepth 4096 in
/-- Helper: a decoded character consumes at least the lead byte, so the
remaining byte list never grows. -/
theorem decodeOneChar_length (b : Nat) (rest : List Nat) (c : Nat) (r2 : List Nat)
    (h : decodeOneChar b rest = some (c, r2)) : r2.length ≤ rest.length := by
  rcases rest with - | ⟨b1, - | ⟨b2, - | ⟨b3, rest3⟩⟩⟩ <;>
      unfold decodeOneChar at h <;>
      (try dsimp only [] at h) <;>
      (repeat' split at h) <;>
    first
      | exact Option.noConfusion h
      | (injection h with h2; injection h2 with h3 h4; subst h4;
          (try simp only [List.length_cons]); omega)

/-- Helper: decoding the UTF-8 encoding of a valid scalar value yields the
value back and consumes exactly its bytes. -/
theorem decodeOneChar_encode (c : Nat)
    (h : c < 55296 ∨ (57343 < c ∧ c < 1114112)) (rest : List Nat) :
    ∃ b tl, utf8EncodeCharNat c ++ rest = b :: tl ∧
      decodeOneChar b tl = some (c, rest) := by
  by_cases h1 : c < 128
  · refine ⟨c, rest, by simp [utf8EncodeCharNat, if_pos h1], ?_⟩
    simp only [decodeOneChar, if_pos h1]
  · by_cases h2 : c < 2048
    · refine ⟨192 + c / 64, (128 + c % 64) :: rest,
        by simp [utf8EncodeCharNat, if_neg h1, if_pos h2], ?_⟩
      unfold decodeOneChar
      rw [if_neg (by omega), if_neg (by omega), if_pos (by omega)]
      dsimp only
      rw [if_pos (by omega), if_pos (by omega)]
      rw [show (192 + c / 64 - 192) * 64 + (128 + c % 64 - 128) = c by omega]
    · by_cases h3 : c < 65536
      · refine ⟨224 + c / 4096, (128 + c / 64 % 64) :: (128 + c % 64) :: rest,
          by simp [utf8EncodeCharNat, if_neg h1, if_neg h2, if_pos h3], ?_⟩
        unfold decodeOneChar
        rw [if_neg (by omega), if_neg (by omega), if_neg (by omega), if_pos (by omega)]
        dsimp only
        rw [if_pos (by omega), if_pos (by omega)]
        rw [show (224 + c / 4096 - 224) * 4096 + (128 + c / 64 % 64 - 128) * 64 + (128 + c % 64 - 128) = c by omega]
      · refine ⟨240 + c / 262144,
          (128 + c / 4096 % 64) :: (128 + c / 64 % 64) :: (128 + c % 64) :: rest,
          by simp [utf8EncodeCharNat, if_neg h1, if_neg h2, if_neg h3], ?_⟩
        unfold decodeOneChar
        rw [if_neg (by omega), if_neg (by omega), if_neg (by omega), if_neg (by omega),
          if_pos (by omega)]
        dsimp only
        rw [if_pos (by omega), if_pos (by omega)]
        rw [show (240 + c / 262144 - 240) * 262144 + (128 + c / 4096 % 64 - 128) * 4096 + (128 + c / 64 % 64 - 128) * 64 + (128 + c % 64 - 128) = c by omega]

/-- Helper: one-character step of the UTF-8 round trip. -/
theorem utf8DecodeNats_encode_char (c : Nat)
    (h : c < 55296 ∨ (57343 < c ∧ c < 1114112)) (rest : List Nat) :
    utf8DecodeNats (utf8EncodeCharNat c ++ rest) =
      (utf8DecodeNats rest).map (c :: ·) := by
  obtain ⟨b, tl, he, hd⟩ := decodeOneChar_encode c h rest
  rw [he, utf8DecodeNats, hd]

/-- Helper: decoding the UTF-8 bytes of a string yields its scalar
values. -/
theorem utf8DecodeNats_encode_string (s : String) :
    utf8DecodeNats (utf8EncodeString s) = some (s.data.map Char.toNat) := by
  unfold utf8EncodeString
  induction s.data with
  | nil => simp [utf8DecodeNats]
  | cons ch tl ih =>
    have hvalid : ch.toNat < 55296 ∨ (57343 < ch.toNat ∧ ch.toNat < 1114112) := ch.valid
    simp only [List.flatMap_cons, List.append_assoc] at *
    rw [utf8DecodeNats_encode_char ch.toNat hvalid, ih]
    simp

/-- Helper: rebuilding a string from its own scalar values is the
identity. -/
theorem natsToString_map_toNat (s : String) :
    natsToString (s.data.map Char.toNat) = s := by
  unfold natsToString
  rw [List.map_map]
  have : (Char.ofNat ∘ Char.toNat) = id := by
    funext c
    exact Char.ofNat_toNat c
  rw [this, List.map_id]

/-- Claim C10: decoding the storage key of any `AssetInfo` (native or
contract) returns the original value:
`from_key_to_asset_info (asset_info_key a) = ok a`. -/
theorem C10_asset_info_key_roundtrip (a : AssetInfo) :
    from_key_to_asset_info (asset_info_key a) = .ok a := by
  cases a with
  | native denom =>
    simp only [asset_info_key, from_key_to_asset_info,
      utf8DecodeNats_encode_string, natsToString_map_toNat]
  | token contractAddr =>
    simp only [asset_info_key, from_key_to_asset_info,
      utf8DecodeNats_encode_string, natsToString_map_toNat]


/-- Claim C9: every lock-mutating operation (CreateLock,
IncreaseLockAmount, IncreaseEndLockTime, Withdraw) fails with
`ContractsCannotInteractWithLocks` whenever the sender is recognized as a
contract, whatever the rest of the state; the handler returns the error
before any mutation, so no state changes. -/
theorem C9_contracts_cannot_interact_with_locks :
    (∀ now prev amount endLockTime,
      execute_create_lock true now prev amount endLockTime =
        .error .contractsCannotInteractWithLocks) ∧
    (∀ now prev increaseAmount,
      execute_increase_lock_amount true now prev increaseAmount =
        .error .contractsCannotInteractWithLocks) ∧
    (∀ now prev lockDenom user,
      execute_withdraw true now prev lockDenom user =
        .error .contractsCannotInteractWithLocks) ∧
    (∀ now prev newEndLockTime,
      execute_increase_end_lock_time true now prev newEndLockTime =
        .error .contractsCannotInteractWithLocks) :=
  ⟨fun _ _ _ _ => rfl, fun _ _ _ => rfl, fun _ _ _ _ => rfl, fun _ _ _ => rfl⟩

/-- Claim C8: in the ownership handoff protocol, a proposal succeeds
exactly for the current owner proposing a different address with a TTL of
at most `MAX_PROPOSAL_TTL`, storing the proposal with absolute expiry
`now + expires_in`; only the current owner can drop; and claiming
succeeds exactly for the proposed owner at or before the expiry, after
which the stored owner becomes the proposed address and the proposal is
cleared. -/
theorem C8_ownership_handoff :
    (∀ (sender newOwner : String) (expiresIn now : Nat) (st : OwnershipState),
      propose_new_owner sender newOwner expiresIn now st =
          .ok { st with proposal := some ⟨newOwner, now + expiresIn⟩ } ↔
        (sender = st.owner ∧ newOwner ≠ st.owner ∧ expiresIn ≤ MAX_PROPOSAL_TTL)) ∧
    (∀ (sender newOwner : String) (expiresIn now : Nat) (st st2 : OwnershipState),
      propose_new_owner sender newOwner expiresIn now st = .ok st2 →
        st2 = { st with proposal := some ⟨newOwner, now + expiresIn⟩ }) ∧
    (∀ (sender : String) (st st2 : OwnershipState),
      drop_ownership_proposal sender st = .ok st2 →
        sender = st.owner ∧ st2 = { st with proposal := none }) ∧
    (∀ (sender : String) (now : Nat) (st st2 : OwnershipState),
      claim_ownership sender now st = .ok st2 ↔
        ∃ p, st.proposal = some p ∧ sender = p.owner ∧ now ≤ p.ttl ∧
          st2 = ⟨p.owner, none⟩) := by
  refine ⟨?_, ?_, ?_, ?_⟩
  · intro sender newOwner expiresIn now st
    constructor
    · intro h
      unfold propose_new_owner at h
      split at h
      case isTrue => exact absurd h (by simp)
      case isFalse h1 =>
        split at h
        case isTrue => exact absurd h (by simp)
        case isFalse h2 =>
          split at h
          case isTrue => exact absurd h (by simp)
          case isFalse h3 => exact ⟨not_not.mp h1, h2, by omega⟩
    · rintro ⟨h1, h2, h3⟩
      unfold propose_new_owner
      rw [if_neg (by simp [h1]), if_neg h2, if_neg (by omega)]
  · intro sender newOwner expiresIn now st st2 h
    unfold propose_new_owner at h
    split at h
    · exact absurd h (by simp)
    · split at h
      · exact absurd h (by simp)
      · split at h
        · exact absurd h (by simp)
        · injection h with h
          exact h.symm
  · intro sender st st2 h
    unfold drop_ownership_proposal at h
    split at h
    case isTrue => exact absurd h (by simp)
    case isFalse h1 =>
      injection h with h
      exact ⟨not_not.mp h1, h.symm⟩
  · intro sender now st st2
    constructor
    · intro h
      unfold claim_ownership at h
      split at h
      · exact absurd h (by simp)
      · rename_i p hp
        split at h
        case isTrue => exact absurd h (by simp)
        case isFalse h1 =>
          split at h
          case isTrue => exact absurd h (by simp)
          case isFalse h2 =>
            injection h with h
            exact ⟨p, hp, not_not.mp h1, by omega, h.symm⟩
    · rintro ⟨p, hp, h1, h2, h3⟩
      unfold claim_ownership
      rw [hp]
      subst h3
      dsimp only
      rw [if_neg (by simp [h1]), if_neg (by omega)]

/-- Witness for C8: a concrete proposal by the owner to a fresh address
with a valid TTL succeeds and stores the proposal, and the proposed owner
claims in time. -/
theorem C8_ownership_handoff_witness :
    propose_new_owner "alice" "bob" 100 1000 ⟨"alice", none⟩ =
      .ok ⟨"alice", some ⟨"bob", 1100⟩⟩ ∧
    ("alice" = "alice" ∧ "bob" ≠ "alice" ∧ 100 ≤ MAX_PROPOSAL_TTL) ∧
    (∃ p, (some (⟨"bob", 1100⟩ : OwnershipProposal)) = some p ∧ "bob" = p.owner ∧
      1050 ≤ p.ttl ∧ (⟨"bob", none⟩ : OwnershipState) = ⟨p.owner, none⟩) :=
  ⟨(C8_ownership_handoff.1 "alice" "bob" 100 1000 ⟨"alice", none⟩).mpr
      ⟨rfl, by decide, by decide⟩,
    ⟨rfl, by decide, by decide⟩,
    (C8_ownership_handoff.2.2.2 "bob" 1050 ⟨"alice", some ⟨"bob", 1100⟩⟩
        ⟨"bob", none⟩).mp (by decide)⟩

/-- Claim C4, the code bug at the concrete failing input: blocking the two
pair tokens of an active pool in one `UpdateBlockedTokenslist` message
succeeds but pushes the pool onto the disable list twice, so its 100
allocation points are subtracted twice from `total_alloc_points`: the
stored total becomes 100 while the remaining active pool list sums to 200,
violating the invariant the claim (and the source's own doc comment on
`Config::total_alloc_points`) states. -/
theorem C4_total_alloc_points_bug :
    update_blocked_pool_tokens c4PairAssets "owner" c4State
        [.native "tokx", .native "toky"] [] = .ok c4Result ∧
    c4Result.config.totalAllocPoints = 100 ∧
    ((c4Result.activePools.map (fun e => e.2)).sum = 200) ∧
    c4Result.config.totalAllocPoints ≠
      (c4Result.activePools.map (fun e => e.2)).sum := by
  refine ⟨by decide, by decide, by decide, by decide⟩

/-- Claim C6, amended (the snapping is to whole weeks from the Unix epoch,
`end / SECONDS_PER_WEEK * SECONDS_PER_WEEK`, not from `EPOCHS_START`,
which is not a multiple of a week): for CreateLock and
IncreaseEndLockTime the supplied end time is snapped first; a successful
call stores the snapped end and implies `now < end`,
`end ≤ now + MAX_SECONDS`, and on extension `end > prev.end`; and when the
other preconditions hold but these bounds fail, the error is
`EndLockTimeTooEarly` or `EndLockTimeTooLate`. -/
theorem C6_end_lock_time_validation :
    (∀ (ic : Bool) (now : Nat) (prev : UserLockedBalance) (amount e : Nat)
        (s : UserLockedBalance),
      execute_create_lock ic now prev amount e = .ok s →
        s.endLockTime = e / SECONDS_PER_WEEK * SECONDS_PER_WEEK ∧
        now < s.endLockTime ∧ s.endLockTime ≤ now + MAX_SECONDS) ∧
    (∀ (now : Nat) (prev : UserLockedBalance) (amount e : Nat),
      prev.existsLock = false → amount ≠ 0 →
      ¬ (now < e / SECONDS_PER_WEEK * SECONDS_PER_WEEK ∧
         e / SECONDS_PER_WEEK * SECONDS_PER_WEEK ≤ now + MAX_SECONDS) →
      execute_create_lock false now prev amount e = .error .endLockTimeTooEarly ∨
      execute_create_lock false now prev amount e =
        .error (.endLockTimeTooLate MAX_WEEKS
          ((e / SECONDS_PER_WEEK * SECONDS_PER_WEEK - now) / MAX_WEEKS))) ∧
    (∀ (ic : Bool) (now : Nat) (prev : UserLockedBalance) (e : Nat)
        (s : UserLockedBalance),
      execute_increase_end_lock_time ic now prev e = .ok s →
        s.endLockTime = e / SECONDS_PER_WEEK * SECONDS_PER_WEEK ∧
        prev.endLockTime < s.endLockTime ∧ now < s.endLockTime ∧
        s.endLockTime ≤ now + MAX_SECONDS) ∧
    (∀ (now : Nat) (prev : UserLockedBalance) (e : Nat),
      prev.isVoidOrUndefined = false → prev.expiredAtTimestamp now = false →
      ¬ (prev.endLockTime < e / SECONDS_PER_WEEK * SECONDS_PER_WEEK ∧
         e / SECONDS_PER_WEEK * SECONDS_PER_WEEK ≤ now + MAX_SECONDS) →
      execute_increase_end_lock_time false now prev e = .error .endLockTimeTooEarly ∨
      execute_increase_end_lock_time false now prev e =
        .error (.endLockTimeTooLate MAX_WEEKS
          ((e / SECONDS_PER_WEEK * SECONDS_PER_WEEK - now) / MAX_WEEKS))) := by
  refine ⟨?_, ?_, ?_, ?_⟩
  · intro ic now prev amount e s h
    simp only [execute_create_lock] at h
    split at h
    · exact absurd h (by simp)
    · split at h
      · exact absurd h (by simp)
      · split at h
        · exact absurd h (by simp)
        · split at h
          case isTrue => exact absurd h (by simp)
          case isFalse h4 =>
            split at h
            case isTrue => exact absurd h (by simp)
            case isFalse h5 =>
              injection h with h
              subst h
              dsimp only
              exact ⟨rfl, by omega, by omega⟩
  · intro now prev amount e h1 h2 h3
    simp only [execute_create_lock, Bool.false_eq_true, if_false, h1, h2]
    split
    · exact Or.inl rfl
    · rename_i h4
      rw [if_pos (by omega)]
      exact Or.inr rfl
  · intro ic now prev e s h
    simp only [execute_increase_end_lock_time] at h
    split at h
    · exact absurd h (by simp)
    · split at h
      · exact absurd h (by simp)
      · split at h
        case isTrue => exact absurd h (by simp)
        case isFalse h3 =>
          split at h
          case isTrue => exact absurd h (by simp)
          case isFalse h4 =>
            split at h
            case isTrue => exact absurd h (by simp)
            case isFalse h5 =>
              injection h with h
              subst h
              dsimp only
              simp only [UserLockedBalance.expiredAtTimestamp,
                decide_eq_true_eq] at h3
              refine ⟨rfl, by omega, by omega, by omega⟩
  · intro now prev e h1 h2 h3
    simp only [execute_increase_end_lock_time, Bool.false_eq_true, if_false, h1, h2]
    split
    · exact Or.inl rfl
    · rename_i h4
      rw [if_pos ?_]
      · exact Or.inr rfl
      · simp only [UserLockedBalance.expiredAtTimestamp,
          decide_eq_false_iff_not] at h2
        omega

/-- Witness for C6: a concrete CreateLock succeeds at the snapped end time
and satisfies the amended bounds. -/
theorem C6_end_lock_time_validation_witness :
    (⟨1000, 1697068800, EPOCHS_START, EPOCHS_START⟩ :
        UserLockedBalance).endLockTime =
      (EPOCHS_START + SECONDS_PER_WEEK) / SECONDS_PER_WEEK * SECONDS_PER_WEEK ∧
    EPOCHS_START < (⟨1000, 1697068800, EPOCHS_START, EPOCHS_START⟩ :
        UserLockedBalance).endLockTime ∧
    (⟨1000, 1697068800, EPOCHS_START, EPOCHS_START⟩ :
        UserLockedBalance).endLockTime ≤ EPOCHS_START + MAX_SECONDS :=
  C6_end_lock_time_validation.1 false EPOCHS_START UserLockedBalance.zero 1000
    (EPOCHS_START + SECONDS_PER_WEEK) _ (by decide)

/-- Counterexample to claim C6 as stated: CreateLock at
`now = EPOCHS_START` with `end_lock_time = EPOCHS_START + one week`
succeeds and stores `1697068800`, which is *not* a whole number of weeks
from `EPOCHS_START` (the source snaps to whole weeks from the Unix
epoch); snapping from `EPOCHS_START` as the claim states would keep
`EPOCHS_START + SECONDS_PER_WEEK` itself. -/
theorem C6_counterexample :
    execute_create_lock false EPOCHS_START UserLockedBalance.zero 1000
        (EPOCHS_START + SECONDS_PER_WEEK) =
      .ok ⟨1000, 1697068800, EPOCHS_START, EPOCHS_START⟩ ∧
    (1697068800 - EPOCHS_START) % SECONDS_PER_WEEK ≠ 0 ∧
    1697068800 ≠ EPOCHS_START +
      (EPOCHS_START + SECONDS_PER_WEEK - EPOCHS_START) / SECONDS_PER_WEEK *
        SECONDS_PER_WEEK := by
  refine ⟨by decide, by decide, by decide⟩

/-- Helper: advancing the reward indexes never changes the staked total. -/
theorem PoolInfo.updateRewards_totalStaked (now : Nat) (p : PoolInfo) :
    (p.updateRewards now).totalStaked = p.totalStaked := by
  unfold PoolInfo.updateRewards
  split <;> rfl

/-- Helper: on a single pool, `claim_rewards` returns the tuple obtained
by updating the pool and syncing the position with `Op::Noop`. -/
theorem claimRewards_singleton_tuples (now : Nat) (user : String)
    (pdex lp : AssetInfo) (p : PoolInfo) (u : UserInfo)
    (msgs : List SubMsg) (proto : Nat)
    (rest : List (AssetInfo × PoolInfo × UserInfo))
    (h : claimRewards now user pdex [(lp, p, u)] = .ok (msgs, proto, rest)) :
    rest = [(lp,
      (UserInfo.updateAndSyncPosition .noop (p.updateRewards now) u).1,
      (UserInfo.updateAndSyncPosition .noop (p.updateRewards now) u).2)] := by
  unfold claimRewards at h
  simp only [claimPools] at h
  split at h
  · injection h with h
    injection h with h1 h
    injection h with h2 h3
    exact h3.symm
  · split at h
    · injection h with h
      injection h with h1 h
      injection h with h2 h3
      exact h3.symm
    · exact absurd h (by simp)

/-- Claim C5, amended (the position is deleted exactly when the resulting
amount is zero, regardless of whether any snapshots remain — the source
only checks `user_info.amount.is_zero()`): a Withdraw of `D` fails with
`AmountExceedsBalance` when `D` exceeds the staked amount (and, the
handler erroring, no state is written); otherwise the user is synced, the
user amount and the pool's staked total each decrease by `D`, the LP-token
return transfer is the last emitted message, and the position is deleted
exactly when the resulting amount is zero. -/
theorem C5_withdraw_behaviour (now : Nat) (pdex lp : AssetInfo)
    (amount : Nat) (p : PoolInfo) (u : UserInfo) (sender user : String) :
    (u.amount < amount →
      withdraw now pdex lp amount p u sender user =
        .error (.amountExceedsBalance u.amount amount)) ∧
    (∀ msgs p3 u3 deleted,
      withdraw now pdex lp amount p u sender user = .ok (msgs, p3, u3, deleted) →
        amount ≤ u.amount ∧
        p3.totalStaked = p.totalStaked - amount ∧
        u3.amount = u.amount - amount ∧
        msgs.getLast? = some (Asset.intoMsg sender ⟨lp, amount⟩) ∧
        (deleted = true ↔ u.amount = amount)) := by
  constructor
  · intro hlt
    unfold withdraw
    rw [if_pos hlt]
  · intro msgs p3 u3 deleted h
    unfold withdraw at h
    split at h
    case isTrue => exact absurd h (by simp)
    case isFalse hge =>
      split at h
      case h_1 e heq => exact absurd h (by simp)
      case h_2 msgs0 proto0 tuples0 heq =>
        have htup := claimRewards_singleton_tuples now user pdex lp p u
          msgs0 proto0 tuples0 heq
        subst htup
        dsimp only at h
        injection h with h
        injection h with h1 h
        injection h with h2 h
        injection h with h3 h4
        subst h1
        subst h2
        subst h3
        subst h4
        refine ⟨by omega, ?_, ?_, ?_, ?_⟩
        · simp only [UserInfo.updateAndSyncPosition,
            PoolInfo.updateRewards_totalStaked]
        · simp only [UserInfo.updateAndSyncPosition]
        · exact List.getLast?_concat _
        · simp only [UserInfo.updateAndSyncPosition, beq_iff_eq]
          omega

/-- Witness for C5: a concrete full withdraw (the C5 scenario, pending
zero) decreases the amount and staked total to zero, returns the LP coin,
and deletes the position. -/
theorem C5_withdraw_behaviour_witness :
    (1 ≤ c5User.amount ∧
      (⟨0, 100, [⟨true, .native "tka", ONE_ATOMICS, 0, 0, 200, []⟩]⟩ :
        PoolInfo).totalStaked = c5Pool.totalStaked - 1 ∧
      (⟨0, [((true, .native "tka"), 0)], []⟩ : UserInfo).amount =
        c5User.amount - 1 ∧
      ([Asset.intoMsg "alice" ⟨.native "ulpa", 1⟩] : List SubMsg).getLast? =
        some (Asset.intoMsg "alice" ⟨.native "ulpa", 1⟩) ∧
      (true = true ↔ c5User.amount = 1)) :=
  (C5_withdraw_behaviour 100 (.native "updex") (.native "ulpa") 1 c5Pool
      c5User "alice" "alice").2
    [Asset.intoMsg "alice" ⟨.native "ulpa", 1⟩]
    ⟨0, 100, [⟨true, .native "tka", ONE_ATOMICS, 0, 0, 200, []⟩]⟩
    ⟨0, [((true, .native "tka"), 0)], []⟩ true (by decide)

/-- Counterexample to claim C5 as stated: in the C5 scenario the pool
still has a live (unfinished) external slot, so the just-synced position
carries a snapshot for it — yet the full withdraw deletes the position
(the source checks only that the amount reached zero, not that the
snapshots were cleared). -/
theorem C5_counterexample :
    withdraw 100 (.native "updex") (.native "ulpa") 1 c5Pool c5User
        "alice" "alice" =
      .ok ([Asset.intoMsg "alice" ⟨.native "ulpa", 1⟩],
        ⟨0, 100, [⟨true, .native "tka", ONE_ATOMICS, 0, 0, 200, []⟩]⟩,
        ⟨0, [((true, .native "tka"), 0)], []⟩, true) ∧
    (⟨0, [((true, .native "tka"), 0)], []⟩ : UserInfo).snapshots ≠ [] ∧
    (⟨0, [((true, .native "tka"), 0)], []⟩ : UserInfo).amount = 0 := by
  refine ⟨by decide, by decide, by decide⟩

/-- Claim C3, amended: within the `claim_rewards` response the
token-factory mint for a non-zero protocol reward is the last sub-message;
ClaimRewards and Deposit return that response's message list unchanged
(so there the mint is last), but Withdraw appends the LP-token return
transfer *after* it, so in a Withdraw response the mint is the last
message before the final LP-token transfer, not the last message. -/
theorem C3_mint_message_position :
    (∀ (now : Nat) (user : String) (pdex : AssetInfo)
        (tuples : List (AssetInfo × PoolInfo × UserInfo))
        (msgs : List SubMsg) (proto : Nat)
        (rest : List (AssetInfo × PoolInfo × UserInfo)),
      claimRewards now user pdex tuples = .ok (msgs, proto, rest) → proto ≠ 0 →
        ∃ denom, pdex = .native denom ∧
          msgs.getLast? = some ⟨0, .never, .mintTokens denom proto user⟩) ∧
    (∀ (now : Nat) (pdex : AssetInfo) (registered : Bool) (lp : AssetInfo)
        (amount : Nat) (p : PoolInfo) (u : UserInfo) (staker : String)
        (msgs : List SubMsg) (p3 : PoolInfo) (u3 : UserInfo),
      deposit now pdex registered lp amount p u staker = .ok (msgs, p3, u3) →
        ∃ proto rest,
          claimRewards now staker pdex [(lp, p, u)] = .ok (msgs, proto, rest)) ∧
    (∀ (now : Nat) (pdex lp : AssetInfo) (amount : Nat) (p : PoolInfo)
        (u : UserInfo) (sender user : String) (msgs : List SubMsg)
        (p3 : PoolInfo) (u3 : UserInfo) (deleted : Bool),
      withdraw now pdex lp amount p u sender user = .ok (msgs, p3, u3, deleted) →
        ∃ cm proto rest,
          claimRewards now user pdex [(lp, p, u)] = .ok (cm, proto, rest) ∧
            msgs = cm ++ [Asset.intoMsg sender ⟨lp, amount⟩]) := by
  refine ⟨?_, ?_, ?_⟩
  · intro now user pdex tuples msgs proto rest h hproto
    unfold claimRewards at h
    dsimp only [] at h
    split at h
    case isTrue hz =>
      injection h with h
      injection h with h1 h
      injection h with h2 h3
      subst h2
      exact absurd hz hproto
    case isFalse hz =>
      split at h
      case h_1 denom hd =>
        injection h with h
        injection h with h1 h
        injection h with h2 h3
        subst h1
        subst h2
        exact ⟨hd, rfl, List.getLast?_concat _⟩
      case h_2 => exact absurd h (by simp)
  · intro now pdex registered lp amount p u staker msgs p3 u3 h
    unfold deposit at h
    split at h
    · exact absurd h (by simp)
    · rcases hcr : claimRewards now staker pdex [(lp, p, u)] with e | ⟨msgs0, proto0, tuples0⟩
      · rw [hcr] at h
        exact absurd h (by simp)
      · have ht := claimRewards_singleton_tuples now staker pdex lp p u
          msgs0 proto0 tuples0 hcr
        subst ht
        rw [hcr] at h
        dsimp only at h
        injection h with h
        injection h with h1 h
        subst h1
        exact ⟨proto0, _, rfl⟩
  · intro now pdex lp amount p u sender user msgs p3 u3 deleted h
    unfold withdraw at h
    split at h
    · exact absurd h (by simp)
    · rcases hcr : claimRewards now user pdex [(lp, p, u)] with e | ⟨msgs0, proto0, tuples0⟩
      · rw [hcr] at h
        exact absurd h (by simp)
      · have ht := claimRewards_singleton_tuples now user pdex lp p u
          msgs0 proto0 tuples0 hcr
        subst ht
        rw [hcr] at h
        dsimp only at h
        injection h with h
        injection h with h1 h
        subst h1
        exact ⟨msgs0, proto0, _, rfl, rfl⟩

/-- Witness for C3: on the C3 scenario (protocol reward of 2 units) the
claim response's message list ends with the mint. -/
theorem C3_mint_message_position_witness :
    ∃ denom, (AssetInfo.native "updex") = .native denom ∧
      ([⟨0, .never, .mintTokens "updex" 2 "alice"⟩] : List SubMsg).getLast? =
        some ⟨0, .never, .mintTokens denom 2 "alice"⟩ :=
  C3_mint_message_position.1 100 "alice" (.native "updex")
    [(.native "ulpa", c3Pool, c3User)]
    [⟨0, .never, .mintTokens "updex" 2 "alice"⟩] 2
    [(.native "ulpa", c3Pool,
      ⟨1, [((false, .native "updex"), 2 * ONE_ATOMICS)], []⟩)]
    (by decide) (by decide)

/-- Counterexample to claim C3 as stated: a Withdraw that credits a
non-zero protocol reward (2 units minted) emits the mint followed by the
LP-token return transfer, so the mint is not the last message of the
response. -/
theorem C3_counterexample :
    (withdraw 100 (.native "updex") (.native "ulpa") 1 c3Pool c3User
        "alice" "alice").map (fun r => r.1) =
      .ok [⟨0, .never, .mintTokens "updex" 2 "alice"⟩,
           Asset.intoMsg "alice" ⟨.native "ulpa", 1⟩] ∧
    ([⟨0, .never, .mintTokens "updex" 2 "alice"⟩,
      Asset.intoMsg "alice" ⟨.native "ulpa", 1⟩] : List SubMsg).getLast? =
      some (Asset.intoMsg "alice" ⟨.native "ulpa", 1⟩) ∧
    Asset.intoMsg "alice" ⟨.native "ulpa", 1⟩ ≠
      ⟨0, .never, .mintTokens "updex" 2 "alice"⟩ ∧
    (⟨0, .never, .mintTokens "updex" 2 "alice"⟩ : SubMsg) ∈
      [⟨0, .never, .mintTokens "updex" 2 "alice"⟩,
       Asset.intoMsg "alice" ⟨.native "ulpa", 1⟩] := by
  refine ⟨by decide, by decide, by decide, by decide⟩

/-- Helper: head unfolding of `assetTotal`. -/
theorem assetTotal_cons (k : AssetInfo) (a : Asset) (l : List Asset) :
    assetTotal k (a :: l) = (if a.info = k then a.amount else 0) + assetTotal k l := by
  unfold assetTotal
  rw [List.filter_cons]
  split
  case isTrue hc =>
    rw [if_pos (by simpa using hc)]
    simp
  case isFalse hc =>
    rw [if_neg (by simpa using hc)]
    simp

/-- Helper: head unfolding of `runTotal`. -/
theorem runTotal_cons (k i : AssetInfo) (t : Nat) (gl : List (AssetInfo × Nat)) :
    runTotal k ((i, t) :: gl) = (if i = k then t else 0) + runTotal k gl := by
  unfold runTotal
  rw [List.filter_cons]
  split
  case isTrue hc =>
    rw [if_pos (by simpa using hc)]
    simp
  case isFalse hc =>
    rw [if_neg (by simpa using hc)]
    simp

/-- Helper: `runTotal` of the empty run list. -/
theorem runTotal_nil (k : AssetInfo) : runTotal k [] = 0 := rfl

/-- Helper: grouping consecutive runs preserves the per-asset totals —
the heart of the `chunk_by` aggregation. -/
theorem groupRuns_total (k : AssetInfo) (l : List Asset) :
    runTotal k (groupRuns l) = assetTotal k l := by
  induction l with
  | nil => rfl
  | cons a rest ih =>
    rw [assetTotal_cons]
    simp only [groupRuns]
    cases hg : groupRuns rest with
    | nil =>
      rw [hg] at ih
      rw [runTotal_nil] at ih
      dsimp only
      obtain ⟨pa, pb⟩ : True ∧ True := ⟨trivial, trivial⟩
      rw [runTotal_cons, runTotal_nil, ← ih]
    | cons g more =>
      obtain ⟨k0, t0⟩ := g
      rw [hg] at ih
      rw [runTotal_cons] at ih
      dsimp only
      by_cases hak : a.info = k0
      · rw [if_pos hak, runTotal_cons]
        by_cases hk : k0 = k
        · rw [if_pos hk] at *
          rw [if_pos (hak.trans hk)]
          omega
        · rw [if_neg hk] at *
          rw [if_neg (fun hh => hk (hak.symm.trans hh))]
          omega
      · rw [if_neg hak, runTotal_cons, runTotal_cons]
        omega

/-- Helper: every reward collected by `claimPools` has a non-zero amount
(zero pending amounts are filtered at the source). -/
theorem claimPools_pos (now : Nat) (tuples : List (AssetInfo × PoolInfo × UserInfo)) :
    ∀ a ∈ (claimPools now tuples).1, a.amount ≠ 0 := by
  induction tuples with
  | nil => intro a h; exact absurd h (by simp [claimPools])
  | cons t rest ih =>
    obtain ⟨lp, p, u⟩ := t
    intro a h
    simp only [claimPools, List.mem_append] at h
    rcases h with (h | h) | h
    · have := List.mem_filter.mp h
      simpa using this.2
    · obtain ⟨r, hr, hcond⟩ := List.mem_filterMap.mp h
      split at hcond
      case isTrue hc =>
        injection hcond with hcond
        subst hcond
        exact hc.1
      case isFalse => exact absurd hcond (by simp)
    · exact ih a h

/-- Helper: when every entry is non-zero, so is every grouped run
total. -/
theorem groupRuns_pos (l : List Asset) (hl : ∀ a ∈ l, a.amount ≠ 0) :
    ∀ g ∈ groupRuns l, g.2 ≠ 0 := by
  induction l with
  | nil => intro g h; exact absurd h (by simp [groupRuns])
  | cons a rest ih =>
    intro g h
    have ha : a.amount ≠ 0 := hl a (by simp)
    have hrest : ∀ b ∈ rest, b.amount ≠ 0 := fun b hb => hl b (by simp [hb])
    simp only [groupRuns] at h
    cases hg : groupRuns rest with
    | nil =>
      rw [hg] at h
      dsimp only at h
      rcases List.mem_singleton.mp h with rfl
      exact ha
    | cons g0 more =>
      obtain ⟨k0, t0⟩ := g0
      rw [hg] at h
      dsimp only at h
      have ihg : ∀ g ∈ (k0, t0) :: more, g.2 ≠ 0 := by
        rw [← hg]
        exact ih hrest
      by_cases hak : a.info = k0
      · rw [if_pos hak] at h
        rcases List.mem_cons.mp h with rfl | hmem
        · have := ihg (k0, t0) (by simp)
          simp only at this ⊢
          omega
        · exact ihg g (by simp [hmem])
      · rw [if_neg hak] at h
        rcases List.mem_cons.mp h with rfl | hmem
        · exact ha
        · exact ihg g hmem

/-- Helper: the amount a transfer sub-message built from an asset carries
for a queried asset id. -/
theorem amountFor_intoSubmsg (k k' : AssetInfo) (t : Nat) (user : String)
    (rp : Option (ReplyMode × Nat)) :
    SubMsg.amountFor k (Asset.intoSubmsg user rp ⟨k', t⟩) =
      if k' = k then t else 0 := by
  cases k with
  | native d =>
    cases k' with
    | native d2 =>
      by_cases hd : d2 = d
      · subst hd
        simp [SubMsg.amountFor, Asset.intoSubmsg]
      · rw [if_neg (by simp [hd])]
        simp [SubMsg.amountFor, Asset.intoSubmsg, hd]
    | token c2 => simp [SubMsg.amountFor, Asset.intoSubmsg]
  | token c =>
    cases k' with
    | native d2 => simp [SubMsg.amountFor, Asset.intoSubmsg]
    | token c2 =>
      by_cases hc : c2 = c
      · subst hc
        simp [SubMsg.amountFor, Asset.intoSubmsg]
      · rw [if_neg (by simp [hc])]
        simp [SubMsg.amountFor, Asset.intoSubmsg, hc]

/-- Helper: mapping grouped runs to transfer sub-messages preserves the
per-asset totals. -/
theorem transferTotal_runs (k : AssetInfo) (user : String)
    (rp : Option (ReplyMode × Nat)) (gl : List (AssetInfo × Nat)) :
    transferTotal k (gl.map (fun g => Asset.intoSubmsg user rp ⟨g.1, g.2⟩)) =
      runTotal k gl := by
  induction gl with
  | nil => rfl
  | cons g more ih =>
    obtain ⟨i, t⟩ := g
    simp only [List.map_cons]
    unfold transferTotal at *
    simp only [List.map_cons, List.sum_cons, ih, amountFor_intoSubmsg]
    rw [runTotal_cons]

/-- Helper: a mint sub-message transfers no balance of any asset. -/
theorem amountFor_mint (k : AssetInfo) (denom : String) (amt : Nat) (toAddr : String) :
    SubMsg.amountFor k ⟨0, .never, .mintTokens denom amt toAddr⟩ = 0 := by
  cases k <;> rfl

/-- Helper: `transferTotal` distributes over appending. -/
theorem transferTotal_append (k : AssetInfo) (l1 l2 : List SubMsg) :
    transferTotal k (l1 ++ l2) = transferTotal k l1 + transferTotal k l2 := by
  unfold transferTotal
  simp

/-- Claim C2, amended: `claim_rewards` aggregates consecutive runs of
equal asset in the collected reward sequence (`itertools::chunk_by`
groups only adjacent entries, so a reward asset recurring in a later pool
yields a second transfer); every transfer sub-message is built with
reply-on-error and the dedicated reply id and carries a positive amount,
and for every asset id the summed transfer amounts equal the summed
pending amounts collected over all claimed slots and pools. -/
theorem C2_transfer_aggregation (now : Nat) (user : String)
    (pdex : AssetInfo) (tuples : List (AssetInfo × PoolInfo × UserInfo))
    (msgs : List SubMsg) (proto : Nat)
    (rest : List (AssetInfo × PoolInfo × UserInfo))
    (hok : claimRewards now user pdex tuples = .ok (msgs, proto, rest)) :
    (∀ m ∈ msgs, m.msg.isTransfer = true →
      ∃ k t, m = Asset.intoSubmsg user (some (.onError, POST_TRANSFER_REPLY_ID))
          ⟨k, t⟩ ∧ t ≠ 0) ∧
    (∀ k, transferTotal k msgs = assetTotal k (claimPools now tuples).1) := by
  have hpos := claimPools_pos now tuples
  have hgpos := groupRuns_pos (claimPools now tuples).1 hpos
  unfold claimRewards at hok
  dsimp only [] at hok
  split at hok
  case isTrue hz =>
    injection hok with hok
    injection hok with h1 hok
    injection hok with h2 h3
    subst h1
    constructor
    · intro m hm _
      obtain ⟨g, hg, rfl⟩ := List.mem_map.mp hm
      exact ⟨g.1, g.2, rfl, hgpos g hg⟩
    · intro k
      rw [transferTotal_runs, groupRuns_total]
  case isFalse hz =>
    split at hok
    case h_1 d hd =>
      injection hok with hok
      injection hok with h1 hok
      injection hok with h2 h3
      subst h1
      constructor
      · intro m hm htr
        rcases List.mem_append.mp hm with hmem | hmem
        · obtain ⟨g, hg, rfl⟩ := List.mem_map.mp hmem
          exact ⟨g.1, g.2, rfl, hgpos g hg⟩
        · rcases List.mem_singleton.mp hmem with rfl
          exact absurd htr (by simp [MsgKind.isTransfer])
      · intro k
        rw [transferTotal_append, transferTotal_runs, groupRuns_total]
        unfold transferTotal
        rw [List.map_singleton, List.sum_singleton, amountFor_mint]
        omega
    case h_2 => exact absurd hok (by simp)

/-- Witness for C2: on the two-pool C2 scenario the per-asset totals are
preserved — the two `tka` transfers sum to the 5 units pending across both
pools. -/
theorem C2_transfer_aggregation_witness :
    (transferTotal (.native "tka") c2Msgs =
      assetTotal (.native "tka") (claimPools 100 c2Tuples).1) ∧
    transferTotal (.native "tka") c2Msgs = 5 :=
  ⟨(C2_transfer_aggregation 100 "bob" (.native "updex") c2Tuples c2Msgs 0
      [(.native "ulpa",
        ⟨1, 100, [⟨true, .native "tka", ONE_ATOMICS, 2 * ONE_ATOMICS, 0, 200, []⟩,
                  ⟨true, .native "tkb", ONE_ATOMICS, 2 * ONE_ATOMICS, 0, 200, []⟩]⟩,
        ⟨1, [((true, .native "tka"), 2 * ONE_ATOMICS),
             ((true, .native "tkb"), 2 * ONE_ATOMICS)], []⟩),
       (.native "ulpb",
        ⟨1, 100, [⟨true, .native "tka", ONE_ATOMICS, 3 * ONE_ATOMICS, 0, 200, []⟩]⟩,
        ⟨1, [((true, .native "tka"), 3 * ONE_ATOMICS)], []⟩)]
      (by decide)).2 (.native "tka"),
    by decide⟩

/-- Counterexample to claim C2 as stated: claiming the two pools of the C2
scenario produces three transfer sub-messages, two of which move the same
asset `tka` (its entries are separated by the `tkb` reward, and
`chunk_by` only merges adjacent entries) — not exactly one transfer per
distinct asset id. -/
theorem C2_counterexample :
    (claimRewards 100 "bob" (.native "updex") c2Tuples).map (fun r => r.1) =
      .ok c2Msgs ∧
    c2Msgs.countP (fun m => SubMsg.amountFor (.native "tka") m != 0) = 2 ∧
    (2 : Nat) ≠ 1 := by
  refine ⟨by decide, by decide, by decide⟩

/-- Helper: a successful fee deduction means the funds held a coin of the
fee denom covering the fee. -/
theorem deductFee_some_exists (fee : Coin) (funds funds2 : List Coin)
    (h : deductFee fee funds = some funds2) :
    ∃ c ∈ funds, c.denom = fee.denom ∧ fee.amount ≤ c.amount := by
  induction funds generalizing funds2 with
  | nil => exact absurd h (by simp [deductFee])
  | cons c rest ih =>
    unfold deductFee at h
    split at h
    case isTrue hden =>
      split at h
      case isTrue => exact absurd h (by simp)
      case isFalse hge => exact ⟨c, by simp, hden, by omega⟩
    case isFalse hden =>
      rcases Option.map_eq_some'.mp h with ⟨rest2, hr, -⟩
      obtain ⟨c2, hc2, hd, ha⟩ := ih rest2 hr
      exact ⟨c2, by simp [hc2], hd, ha⟩

/-- Helper: denoms surviving a fee deduction come from the original
funds. -/
theorem deductFee_denoms (fee : Coin) (funds funds2 : List Coin)
    (h : deductFee fee funds = some funds2) :
    ∀ d ∈ funds2.map Coin.denom, d ∈ funds.map Coin.denom := by
  induction funds generalizing funds2 with
  | nil => exact absurd h (by simp [deductFee])
  | cons c rest ih =>
    unfold deductFee at h
    split at h
    case isTrue hden =>
      split at h
      case isTrue => exact absurd h (by simp)
      case isFalse =>
        split at h
        case isTrue =>
          injection h with h
          subst h
          intro d hd
          simp [hd]
        case isFalse =>
          injection h with h
          subst h
          intro d hd
          simpa using hd
    case isFalse hden =>
      rcases Option.map_eq_some'.mp h with ⟨rest2, hr, hmap⟩
      subst hmap
      intro d hd
      rcases List.mem_map.mp hd with ⟨c2, hc2, rfl⟩
      rcases List.mem_cons.mp hc2 with rfl | hmem
      · simp
      · have := ih rest2 hr c2.denom (List.mem_map_of_mem Coin.denom hmem)
        simp [this]

/-- Helper: fee deduction preserves uniqueness of the fund denoms. -/
theorem deductFee_nodup (fee : Coin) (funds funds2 : List Coin)
    (hnd : (funds.map Coin.denom).Nodup)
    (h : deductFee fee funds = some funds2) :
    (funds2.map Coin.denom).Nodup := by
  induction funds generalizing funds2 with
  | nil => exact absurd h (by simp [deductFee])
  | cons c rest ih =>
    simp only [List.map_cons, List.nodup_cons] at hnd
    unfold deductFee at h
    split at h
    case isTrue hden =>
      split at h
      case isTrue => exact absurd h (by simp)
      case isFalse =>
        split at h
        case isTrue =>
          injection h with h
          subst h
          exact hnd.2
        case isFalse =>
          injection h with h
          subst h
          simpa using hnd
    case isFalse hden =>
      rcases Option.map_eq_some'.mp h with ⟨rest2, hr, hmap⟩
      subst hmap
      simp only [List.map_cons, List.nodup_cons]
      refine ⟨fun hin => hnd.1 (deductFee_denoms fee rest rest2 hr c.denom hin), ?_⟩
      exact ih rest2 hnd.2 hr

/-- Helper: without an adequate fee coin the deduction fails — the `none`
result characterizes funds whose every fee-denom coin is short (with
unique denoms the first matching coin is the only one). -/
theorem deductFee_none_iff (fee : Coin) (funds : List Coin)
    (hnd : (funds.map Coin.denom).Nodup) :
    deductFee fee funds = none ↔
      ∀ c ∈ funds, c.denom = fee.denom → c.amount < fee.amount := by
  induction funds with
  | nil => simp [deductFee]
  | cons c rest ih =>
    simp only [List.map_cons, List.nodup_cons] at hnd
    unfold deductFee
    split
    case isTrue hden =>
      split
      case isTrue hlt =>
        simp only [true_iff]
        intro c2 hc2 hd2
        rcases List.mem_cons.mp hc2 with rfl | hmem
        · exact hlt
        · exact absurd (hden ▸ hd2 ▸ List.mem_map_of_mem Coin.denom hmem)
            (by simpa [hden] using hnd.1)
      case isFalse hge =>
        split
        case isTrue =>
          exact iff_of_false (by simp)
            (fun hall => absurd (hall c (by simp) hden) (by omega))
        case isFalse =>
          exact iff_of_false (by simp)
            (fun hall => absurd (hall c (by simp) hden) (by omega))
    case isFalse hden =>
      rw [Option.map_eq_none']
      rw [ih hnd.2]
      constructor
      · intro hall c2 hc2 hd2
        rcases List.mem_cons.mp hc2 with rfl | hmem
        · exact absurd hd2 hden
        · exact hall c2 hmem hd2
      · intro hall c2 hc2 hd2
        exact hall c2 (by simp [hc2]) hd2

/-- Helper: a passing second loop of `assert_coins_properly_sent` means
every sent coin's denom is a pool asset. -/
theorem checkSentCoins_ok (pis : List AssetInfo) (funds : List Coin)
    (h : checkSentCoins pis funds = .ok ()) :
    ∀ c ∈ funds, (AssetInfo.native c.denom) ∈ pis := by
  induction funds with
  | nil => intro c hc; exact absurd hc (by simp)
  | cons c rest ih =>
    unfold checkSentCoins at h
    split at h
    case isTrue hin =>
      intro c2 hc2
      rcases List.mem_cons.mp hc2 with rfl | hmem
      · exact hin
      · exact ih h c2 hmem
    case isFalse => exact absurd h (by simp)

/-- Helper: with unique denoms and a non-zero declared amount, a passing
`assert_coins_properly_sent` for a single native input pins the funds to
exactly the declared coin. -/
theorem assertCoins_single_native_exact (funds2 : List Coin) (d : String)
    (amt : Nat) (hnd : (funds2.map Coin.denom).Nodup) (hamt : amt ≠ 0)
    (h : assertCoinsProperlySent funds2 [⟨.native d, amt⟩] [.native d] = .ok ()) :
    funds2 = [⟨d, amt⟩] := by
  unfold assertCoinsProperlySent at h
  rw [if_neg (by simp)] at h
  rw [if_neg (by simp)] at h
  split at h
  case h_1 e heq => exact absurd h (by simp)
  case h_2 u0 heq =>
    unfold checkInputAssets at heq
    rw [if_pos (by simp)] at heq
    dsimp only at heq
    split at heq
    case isTrue => exact absurd heq (by simp)
    case isFalse hfind =>
      have hall := checkSentCoins_ok [.native d] funds2 h
      cases funds2 with
      | nil => simp at hfind; omega
      | cons c rest =>
        have hcd : c.denom = d := by
          have := hall c (by simp)
          simpa using this
        cases rest with
        | nil =>
          rw [List.find?_cons_of_pos _ (by simp [hcd])] at hfind
          simp only [Option.getD_some, Decidable.not_not] at hfind
          have hc : c = ⟨d, amt⟩ := by
            cases c
            simp only [Coin.mk.injEq]
            exact ⟨hcd, hfind⟩
          rw [hc]
        | cons c2 rest2 =>
          have hc2d : c2.denom = d := by
            have := hall c2 (by simp)
            simpa using this
          simp only [List.map_cons, List.nodup_cons, List.mem_cons] at hnd
          exact absurd (Or.inl (hcd.trans hc2d.symm)) hnd.1

/-- Helper: the schedule produced by `from_input` carries the input's
reward info. -/
theorem fromInput_rewardInfo (t : Nat) (input : InputSchedule)
    (s : IncentivesSchedule) (h : IncentivesSchedule.fromInput t input = .ok s) :
    s.rewardInfo = input.reward.info := by
  simp only [IncentivesSchedule.fromInput] at h
  split at h
  · exact absurd h (by simp)
  · split at h
    · split at h
      · exact absurd h (by simp)
      · injection h with h
        subst h
        rfl
    · split at h
      · exact absurd h (by simp)
      · injection h with h
        subst h
        rfl

/-- Helper: a produced schedule implies a non-zero reward amount (with a
zero amount the reward rate is zero, below one unit per second). -/
theorem fromInput_amount_ne_zero (t : Nat) (input : InputSchedule)
    (s : IncentivesSchedule) (h : IncentivesSchedule.fromInput t input = .ok s) :
    input.reward.amount ≠ 0 := by
  intro h0
  simp only [IncentivesSchedule.fromInput] at h
  split at h
  · exact absurd h (by simp)
  · rw [h0] at h
    split at h
    · rw [if_pos (by norm_num [ONE_ATOMICS])] at h
      exact absurd h (by simp)
    · rw [if_pos (by norm_num [ONE_ATOMICS])] at h
      exact absurd h (by simp)

/-- Claim C7: when `Incentivize` introduces a new external reward token to
a pool (the slot count grows) while a fee is configured, a successful call
implies the sender's funds held the fee denom with at least the fee
amount, the response forwards the fee to the fee receiver, and for a
native reward the funds left after deducting the fee are exactly the
declared reward coin; if no adequate fee coin was sent (all other checks
passing), the call fails with the fee-expected error.  Fund lists are
assumed to have unique denoms, as the bank module normalizes them. -/
theorem C7_incentivize_fee (now : Nat) (ca : String)
    (blocked : List AssetInfo) (p : PoolInfo) (sender : String)
    (funds : List Coin) (input : InputSchedule)
    (fi : IncentivizationFeeInfo)
    (hnd : (funds.map Coin.denom).Nodup) :
    (∀ msgs p2,
      incentivize now ca blocked true (some fi) p sender funds input =
          .ok (msgs, p2) →
      (p.updateRewards now).rewards.length < p2.rewards.length →
        (∃ c ∈ funds, c.denom = fi.fee.denom ∧ fi.fee.amount ≤ c.amount) ∧
        (⟨0, .never, .bankSend fi.feeReceiver [fi.fee]⟩ : SubMsg) ∈ msgs ∧
        (∀ d, input.reward.info = .native d →
          ∃ funds2, deductFee fi.fee funds = some funds2 ∧
            funds2 = [⟨d, input.reward.amount⟩])) ∧
    (∀ schedule p2,
      IncentivesSchedule.fromInput now input = .ok schedule →
      schedule.rewardInfo ∉ blocked →
      (p.updateRewards now).incentivizePool now schedule = .ok p2 →
      (p.updateRewards now).rewards.length < p2.rewards.length →
      deductFee fi.fee funds = none →
      incentivize now ca blocked true (some fi) p sender funds input =
        .error (.incentivizationFeeExpected fi.fee)) ∧
    (deductFee fi.fee funds = none ↔
      ∀ c ∈ funds, c.denom = fi.fee.denom → c.amount < fi.fee.amount) := by
  refine ⟨?_, ?_, deductFee_none_iff fi.fee funds hnd⟩
  · intro msgs p2 hok hnew
    unfold incentivize at hok
    split at hok
    case h_1 => exact absurd hok (by simp)
    case h_2 schedule heqS =>
      split at hok
      case isTrue => exact absurd hok (by simp)
      case isFalse hbl =>
        split at hok
        case isTrue hreg => exact absurd hok (by simp)
        case isFalse =>
          dsimp only [] at hok
          split at hok
          case h_1 => exact absurd hok (by simp)
          case h_2 p2x heqP =>
            by_cases hlen :
              (PoolInfo.updateRewards now p).rewards.length < p2x.rewards.length
            · rw [if_pos hlen] at hok
              rcases hdf : deductFee fi.fee funds with - | funds2
              · rw [hdf] at hok
                dsimp only [] at hok
                exact absurd hok (by simp)
              · rw [hdf] at hok
                dsimp only [] at hok
                have hex := deductFee_some_exists fi.fee funds funds2 hdf
                split at hok
                next c0 hc0 =>
                  injection hok with hok
                  injection hok with h1 h2
                  subst h1
                  subst h2
                  refine ⟨hex, by simp, ?_⟩
                  intro d hd
                  have hinfo := fromInput_rewardInfo now input schedule heqS
                  rw [hd] at hinfo
                  rw [hc0] at hinfo
                  exact absurd hinfo (by simp)
                next d0 hd0 =>
                  split at hok
                  next u0 hequ =>
                    injection hok with hok
                    injection hok with h1 h2
                    subst h1
                    subst h2
                    refine ⟨hex, by simp, ?_⟩
                    intro d hd
                    have hinfo := fromInput_rewardInfo now input schedule heqS
                    have hdd0 : d0 = d := by
                      rw [hd] at hinfo
                      rw [hd0] at hinfo
                      injection hinfo with hinfo
                      try exact hinfo
                    subst hdd0
                    refine ⟨funds2, rfl, ?_⟩
                    have hnd2 := deductFee_nodup fi.fee funds funds2 hnd hdf
                    have hamt := fromInput_amount_ne_zero now input schedule heqS
                    refine assertCoins_single_native_exact funds2 d0
                      input.reward.amount hnd2 hamt ?_
                    rw [hd0] at hequ
                    have hri : input.reward = ⟨.native d0, input.reward.amount⟩ := by
                      cases hr : input.reward with
                      | mk i a =>
                        rw [hr] at hd
                        simp only at hd
                        simp [hd]
                    rw [← hri]
                    rw [hequ]
                  next => exact absurd hok (by simp)
            · rw [if_neg hlen] at hok
              dsimp only [] at hok
              split at hok
              next c0 hc0 =>
                injection hok with hok
                injection hok with h1 h2
                subst h2
                exact absurd hnew hlen
              next d0 hd0 =>
                split at hok
                next u0 hequ =>
                  injection hok with hok
                  injection hok with h1 h2
                  subst h2
                  exact absurd hnew hlen
                next => exact absurd hok (by simp)
  · intro schedule p2 heqS hbl hP hlen hdf
    unfold incentivize
    rw [heqS]
    dsimp only []
    rw [if_neg hbl]
    rw [if_neg (by simp)]
    (try dsimp only [])
    rw [hP]
    (try dsimp only [])
    rw [if_pos hlen]
    rw [hdf]

/-- Witness for C7: on the concrete C7 scenario (empty pool, configured
fee of 5 ufee, native reward of 10^12 urew, funds holding exactly both
coins) the successful call pays the fee forward and the remaining funds
are exactly the reward coin. -/
theorem C7_incentivize_fee_witness :
    (∃ c ∈ c7Funds, c.denom = c7FeeInfo.fee.denom ∧
      c7FeeInfo.fee.amount ≤ c.amount) ∧
    (⟨0, .never, .bankSend c7FeeInfo.feeReceiver [c7FeeInfo.fee]⟩ : SubMsg) ∈
      [(⟨0, .never, .bankSend "feerecv" [⟨"ufee", 5⟩]⟩ : SubMsg)] ∧
    (∀ d, c7Input.reward.info = .native d →
      ∃ funds2, deductFee c7FeeInfo.fee c7Funds = some funds2 ∧
        funds2 = [⟨d, c7Input.reward.amount⟩]) :=
  (C7_incentivize_fee EPOCHS_START "engine" [] c7Pool "alice" c7Funds c7Input
      c7FeeInfo (by decide)).1
    [⟨0, .never, .bankSend "feerecv" [⟨"ufee", 5⟩]⟩]
    ⟨0, EPOCHS_START, [⟨true, .native "urew", 10 ^ 30 / 604800, 0, 0,
      EPOCHS_START + EPOCH_LENGTH, []⟩]⟩
    (by decide) (by decide)

end Palomadex
